import Mathlib

/-!
Verification development for the redis_at_home key-value server.

The definitions below are a shallow embedding of the mature core of the
repository: the chaining hash map with incremental rehashing
(`src/src/hashtable.cpp`, constants from `src/src/phase5/hashtable.h`),
and the phase5 event-loop server's parser and command dispatcher
(`src/src/phase5/elserver.cpp`, buffer layout from `src/src/elserver.h`).

Modelling conventions:
* byte strings are `List Nat` with entries in 0..255;
* a `HashTable` bucket array is a `List (List HNode)`; the empty list
  models a NULL `HNode **table` pointer;
* out-of-bounds bucket reads return `[]` and out-of-bounds writes are
  dropped (`List.getD` / `List.set` semantics); these situations are
  C++ undefined behaviour and are unreachable in the states the
  theorems quantify over;
* `uint64_t` counter wraparound on `size--` is not modelled: every
  theorem operates under invariants making the counter equal to the
  stored node count, so the decrement never underflows;
* the C++ while-loop of `hm_resizing` is rendered with explicit fuel
  `k_resizing_work + capacity`; under the cursor invariant (buckets
  before the cursor are empty) each iteration either moves a node
  (at most `k_resizing_work` times) or advances the cursor inside the
  array (at most `capacity` times), so the fuel never runs out.
-/

set_option autoImplicit false

namespace RedisKV

/-- Maximum number of nodes moved per rehash step (`k_resizing_work`). -/
def k_resizing_work : Nat := 128

/-- Load-factor threshold in entries per bucket (`k_max_load_factor`). -/
def k_max_load_factor : Nat := 8

/-- An intrusive hash node together with the `Entry` payload that embeds
it (`struct HNode` in hashtable.cpp plus the key/value strings of the
server's `struct Entry`, which is declared in a header not present under
src/ and whose shape is forced by spec section 3 and by every use in
phase5/elserver.cpp).  The `addr` field models the node's heap address,
i.e. its identity. -/
structure HNode where
  hashcode : Nat
  key : List Nat
  value : List Nat
  addr : Nat
deriving DecidableEq

/-- `struct HashTable`: bucket array, size mask and live-entry count.
`table = []` models a NULL bucket-array pointer. -/
structure HashTable where
  table : List (List HNode)
  mask : Nat
  size : Nat
deriving DecidableEq

/-- `HashTable{}` value initialization: NULL table, zero mask and count. -/
def HashTable.empty : HashTable := ⟨[], 0, 0⟩

/-- `initHashTable`: a table of `n` empty buckets with mask `n - 1`.
The C++ code asserts that `n` is a positive power of two. -/
def initHashTable (n : Nat) : HashTable :=
  ⟨List.replicate n [], n - 1, 0⟩

/-- `h_insert`: push the node on the front of chain `hashcode & mask`
and bump the count. -/
def h_insert (t : HashTable) (n : HNode) : HashTable :=
  let pos := n.hashcode &&& t.mask
  ⟨t.table.set pos (n :: t.table.getD pos []), t.mask, t.size + 1⟩

/-- The chain that a probe with hashcode `hc` selects. -/
def bucketAt (t : HashTable) (hc : Nat) : List HNode :=
  t.table.getD (hc &&& t.mask) []

/-- The chain walk of `h_lookup`: the position of the first node `n` in
the chain with `cmp n probe`, if any. -/
def chainFind (cmp : HNode → HNode → Bool) (q : HNode) :
    List HNode → Option Nat
  | [] => none
  | n :: rest =>
    if cmp n q then some 0 else (chainFind cmp q rest).map fun i => i + 1

/-- `h_lookup`: on a NULL table return none, otherwise scan the chain at
`hashcode & mask` for the first node `n` with `cmp n probe`; the returned
index into the chain models the returned `HNode **` slot. -/
def h_lookup (t : HashTable) (q : HNode) (cmp : HNode → HNode → Bool) :
    Option Nat :=
  if t.table.isEmpty then none
  else chainFind cmp q (bucketAt t q.hashcode)

/-- `h_detach` applied to the slot `i` of the chain at bucket `b`:
unlink that node and decrement the count. -/
def h_detach (t : HashTable) (b i : Nat) : HashTable :=
  ⟨t.table.set b ((t.table.getD b []).eraseIdx i), t.mask, t.size - 1⟩

/-- `struct HMap`: primary table `h1`, secondary table `h2` and the
incremental-rehash cursor `resizing_pos`. -/
structure HMap where
  h1 : HashTable
  h2 : HashTable
  resizing_pos : Nat
deriving DecidableEq

/-- A zero-initialized `HMap` global. -/
def HMap.empty : HMap := ⟨HashTable.empty, HashTable.empty, 0⟩

/-- Body of the `hm_resizing` while loop.  Each iteration with
`moved < k_resizing_work` and `h2.size > 0` either skips an empty bucket
(cursor advances, no budget spent) or detaches the head of the bucket at
the cursor and inserts it into `h1` (budget spent).  Returns the updated
`h1`, `h2` and cursor. -/
def hm_resizing_loop (h1 h2 : HashTable) (pos moved : Nat) :
    Nat → HashTable × HashTable × Nat
  | 0 => (h1, h2, pos)
  | fuel + 1 =>
    if moved < k_resizing_work ∧ 0 < h2.size then
      match h2.table.getD pos [] with
      | [] => hm_resizing_loop h1 h2 (pos + 1) moved fuel
      | n :: rest =>
        hm_resizing_loop (h_insert h1 n)
          ⟨h2.table.set pos rest, h2.mask, h2.size - 1⟩ pos (moved + 1) fuel
    else (h1, h2, pos)

/-- `hm_resizing`: if `h2` exists, move up to `k_resizing_work` nodes
from `h2` to `h1`; when `h2.size` hits 0 release its storage
(`h2 = HashTable{}`).  The cursor is NOT reset here. -/
def hm_resizing (m : HMap) : HMap :=
  if m.h2.table.isEmpty then m
  else
    let r := hm_resizing_loop m.h1 m.h2 m.resizing_pos 0
      (k_resizing_work + m.h2.table.length)
    if r.2.1.size = 0 then ⟨r.1, HashTable.empty, r.2.2⟩
    else ⟨r.1, r.2.1, r.2.2⟩

/-- The slot (`HNode **`) returned by `h_lookup` inside `hm_lookup`:
either a position in the probed chain of `h1` or one of `h2`. -/
inductive Slot where
  | s1 (i : Nat)
  | s2 (i : Nat)
deriving DecidableEq

/-- `hm_lookup`, slot level: do a rehash step, then search `h1`, then
`h2`.  Returns the found slot and the updated map. -/
def hm_lookup_slot (m : HMap) (q : HNode) (cmp : HNode → HNode → Bool) :
    Option Slot × HMap :=
  let m1 := hm_resizing m
  match h_lookup m1.h1 q cmp with
  | some i => (some (Slot.s1 i), m1)
  | none =>
    match h_lookup m1.h2 q cmp with
    | some i => (some (Slot.s2 i), m1)
    | none => (none, m1)

/-- Dereference a slot of `m` probed with hashcode `hc`. -/
def slotGet (m : HMap) (hc : Nat) : Slot → Option HNode
  | Slot.s1 i => (bucketAt m.h1 hc)[i]?
  | Slot.s2 i => (bucketAt m.h2 hc)[i]?

/-- `hm_lookup`: the node a returned slot points at, or NULL. -/
def hm_lookup (m : HMap) (q : HNode) (cmp : HNode → HNode → Bool) :
    Option HNode × HMap :=
  let r := hm_lookup_slot m q cmp
  (r.1.bind fun s => slotGet r.2 q.hashcode s, r.2)

/-- `hm_delete`: rehash step, then detach the first match from `h1`,
else from `h2`; returns the detached node (for the caller to free) and
the updated map. -/
def hm_delete (m : HMap) (q : HNode) (cmp : HNode → HNode → Bool) :
    Option HNode × HMap :=
  let m1 := hm_resizing m
  match h_lookup m1.h1 q cmp with
  | some i =>
    ((bucketAt m1.h1 q.hashcode)[i]?,
      ⟨h_detach m1.h1 (q.hashcode &&& m1.h1.mask) i, m1.h2, m1.resizing_pos⟩)
  | none =>
    match h_lookup m1.h2 q cmp with
    | some i =>
      ((bucketAt m1.h2 q.hashcode)[i]?,
        ⟨m1.h1, h_detach m1.h2 (q.hashcode &&& m1.h2.mask) i, m1.resizing_pos⟩)
    | none => (none, m1)

/-- `hm_trigger_rehashing`: move `h1` into `h2`, allocate a fresh `h1`
of twice the capacity, reset the cursor to 0. -/
def hm_trigger_rehashing (m : HMap) : HMap :=
  ⟨initHashTable ((m.h1.mask + 1) * 2), m.h1, 0⟩

/-- First step of `hm_insert`: initialize `h1` with capacity 4 if its
table pointer is NULL. -/
def insertStep1 (m : HMap) : HMap :=
  if m.h1.table.isEmpty then ⟨initHashTable 4, m.h2, m.resizing_pos⟩ else m

/-- Second step of `hm_insert`: push the node into the primary table. -/
def insertStep2 (m : HMap) (n : HNode) : HMap :=
  ⟨h_insert (insertStep1 m).h1 n, (insertStep1 m).h2,
    (insertStep1 m).resizing_pos⟩

/-- Third step of `hm_insert`: trigger rehashing when no rehash is in
progress and the load factor is reached. -/
def insertStep3 (m : HMap) (n : HNode) : HMap :=
  if (insertStep2 m n).h2.table.isEmpty ∧
      ((insertStep2 m n).h1.mask + 1) * k_max_load_factor ≤
        (insertStep2 m n).h1.size
  then hm_trigger_rehashing (insertStep2 m n) else insertStep2 m n

/-- `hm_insert`: initialize `h1` (capacity 4) on first use, push the
node into `h1`, trigger rehashing when no rehash is in progress and the
load factor is reached, then do a rehash step. -/
def hm_insert (m : HMap) (n : HNode) : HMap :=
  hm_resizing (insertStep3 m n)

/-- All nodes stored in a table, in bucket order. -/
def tableNodes (t : HashTable) : List HNode := t.table.flatten

/-- All nodes stored in the map: primary then secondary. -/
def mapNodes (m : HMap) : List HNode := tableNodes m.h1 ++ tableNodes m.h2

/-- The addresses of all nodes in the map. -/
def nodeAddrs (m : HMap) : List Nat := (mapNodes m).map fun n => n.addr

/-! ## The phase5 server: dispatcher (`do_get`, `do_set`, `do_del`,
`process_request`) -/

/-- ASCII bytes of a string literal. -/
def ascii (s : String) : List Nat := s.data.map Char.toNat

/-- Passing a byte string through `const char *` / `strlen` / the
`std::string(const char *)` constructor truncates it at the first NUL
byte. -/
def cstr (s : List Nat) : List Nat := s.takeWhile fun b => b ≠ 0

/-- `str_hash`: 32-bit FNV-1a over the bytes, returned widened to
`uint64_t`. -/
def str_hash (data : List Nat) : Nat :=
  data.foldl (fun h b => ((h ^^^ b) * 16777619) % 4294967296) 2166136261

/-- The key comparator `cmp` in phase5/elserver.cpp: byte equality of
the two entries' keys. -/
def cmpKeys (a b : HNode) : Bool := a.key == b.key

/-- `enum ResponseStatus`. -/
inductive ResponseStatus where
  | SUCCESS
  | UNKNOWN_COMMAND
  | ERROR
  | KEY_NOT_FOUND
deriving DecidableEq

/-- `struct RequestResponse`. -/
structure RequestResponse where
  status : ResponseStatus
  response : List Nat
deriving DecidableEq

/-- The server's global state: the hash map plus an allocation counter
modelling the addresses handed out by `new Entry()`. -/
structure DB where
  hmap : HMap
  nextAddr : Nat
deriving DecidableEq

/-- The zero-initialized global `DB db`. -/
def DB.init : DB := ⟨HMap.empty, 0⟩

/-- The probe entry built on the stack by `do_get` / `do_set` / `do_del`:
key set from the C string, hashcode from `str_hash`. -/
def probeFor (k : List Nat) : HNode :=
  ⟨str_hash k, k, [], 0⟩

/-- `do_get`: look the key up (this performs a rehash step) and format
`get <k> = <v>\n` or `key not found\n`. -/
def do_get (db : DB) (keyArg : List Nat) : RequestResponse × DB :=
  let k := cstr keyArg
  let r := hm_lookup db.hmap (probeFor k) cmpKeys
  match r.1 with
  | none =>
    (⟨ResponseStatus.KEY_NOT_FOUND, ascii "key not found\n"⟩, ⟨r.2, db.nextAddr⟩)
  | some n =>
    (⟨ResponseStatus.SUCCESS, ascii "get " ++ k ++ ascii " = " ++ n.value ++ ascii "\n"⟩,
      ⟨r.2, db.nextAddr⟩)

/-- Overwrite the value of the node a slot points at
(`container_of(node, Entry, node)->value = value`). -/
def slotSetValue (m : HMap) (hc : Nat) (s : Slot) (v : List Nat) : HMap :=
  match s with
  | Slot.s1 i =>
    match (bucketAt m.h1 hc)[i]? with
    | some n =>
      ⟨⟨m.h1.table.set (hc &&& m.h1.mask)
          ((bucketAt m.h1 hc).set i ⟨n.hashcode, n.key, v, n.addr⟩),
        m.h1.mask, m.h1.size⟩, m.h2, m.resizing_pos⟩
    | none => m
  | Slot.s2 i =>
    match (bucketAt m.h2 hc)[i]? with
    | some n =>
      ⟨m.h1, ⟨m.h2.table.set (hc &&& m.h2.mask)
          ((bucketAt m.h2 hc).set i ⟨n.hashcode, n.key, v, n.addr⟩),
        m.h2.mask, m.h2.size⟩, m.resizing_pos⟩
    | none => m

/-- `do_set`: look the key up; if present overwrite the entry's value in
place through the returned pointer, otherwise allocate a new entry and
insert it.  Responds `set <k> to <v>\n`. -/
def do_set (db : DB) (keyArg valArg : List Nat) : RequestResponse × DB :=
  let k := cstr keyArg
  let v := cstr valArg
  let r := hm_lookup_slot db.hmap (probeFor k) cmpKeys
  let resp : RequestResponse :=
    ⟨ResponseStatus.SUCCESS, ascii "set " ++ k ++ ascii " to " ++ v ++ ascii "\n"⟩
  match r.1 with
  | some s =>
    (resp, ⟨slotSetValue r.2 (str_hash k) s v, db.nextAddr⟩)
  | none =>
    (resp, ⟨hm_insert r.2 ⟨str_hash k, k, v, db.nextAddr⟩, db.nextAddr + 1⟩)

/-- `do_del`: look the key up; if absent respond `key <k> not found\n`,
otherwise `hm_delete` it (freeing the entry) and respond
`key <k> deleted\n`. -/
def do_del (db : DB) (keyArg : List Nat) : RequestResponse × DB :=
  let k := cstr keyArg
  let r := hm_lookup db.hmap (probeFor k) cmpKeys
  match r.1 with
  | none =>
    (⟨ResponseStatus.KEY_NOT_FOUND, ascii "key " ++ k ++ ascii " not found\n"⟩,
      ⟨r.2, db.nextAddr⟩)
  | some _ =>
    let d := hm_delete r.2 (probeFor k) cmpKeys
    (⟨ResponseStatus.SUCCESS, ascii "key " ++ k ++ ascii " deleted\n"⟩,
      ⟨d.2, db.nextAddr⟩)

/-- `process_request`: dispatch a parsed command vector on its verb and
arity. -/
def process_request (db : DB) (command : List (List Nat)) :
    RequestResponse × DB :=
  match command with
  | [] => (⟨ResponseStatus.UNKNOWN_COMMAND, ascii "unknown command\n"⟩, db)
  | verb :: _ =>
    if verb = ascii "set" then
      if command.length ≠ 3 then
        (⟨ResponseStatus.ERROR,
          ascii "invalid number of arguments, set requires two arguments\n"⟩, db)
      else do_set db (command.getD 1 []) (command.getD 2 [])
    else if verb = ascii "get" then
      if command.length ≠ 2 then
        (⟨ResponseStatus.ERROR, ascii "invalid number of arguments\n"⟩, db)
      else do_get db (command.getD 1 [])
    else if verb = ascii "del" then
      if command.length ≠ 2 then
        (⟨ResponseStatus.ERROR,
          ascii "invalid number of arguments, del requires one argument\n"⟩, db)
      else do_del db (command.getD 1 [])
    else (⟨ResponseStatus.UNKNOWN_COMMAND, ascii "unknown command\n"⟩, db)

/-! ## The phase5 server: request parser (`try_one_request`) -/

/-- `MAX_MSG_SIZE` from src/src/elserver.h: the cap on the total bytes
of one request. -/
def MAX_MSG_SIZE : Nat := 1024

/-- `memcpy` of 4 bytes followed by `ntohl`: big-endian 32-bit read at
offset `p`.  Reads beyond the modelled buffer contents return 0, the
value of the zero-initialized `Connection` buffer. -/
def readU32 (buf : List Nat) (p : Nat) : Nat :=
  buf.getD p 0 * 16777216 + buf.getD (p + 1) 0 * 65536 +
    buf.getD (p + 2) 0 * 256 + buf.getD (p + 3) 0

/-- Big-endian encoding of a `uint32` (`htonl` plus 4-byte `memcpy`). -/
def u32be (n : Nat) : List Nat :=
  [n / 16777216 % 256, n / 65536 % 256, n / 256 % 256, n % 256]

/-- A response frame: 4-byte big-endian length prefix plus the body. -/
def frameBytes (body : List Nat) : List Nat := u32be body.length ++ body

/-- Result of parsing one request out of the receive buffer.  `fatal`
carries the error frame that `try_one_request` appends to the send
buffer before returning -1; `crash` marks the path on which
`std::string val(start, length)` is called with a negative `int32_t`
length, which throws an uncaught `std::length_error` and terminates the
whole process. -/
inductive ParseResult where
  | needMore
  | fatal (frame : List Nat)
  | ok (consumed : Nat) (command : List (List Nat))
  | crash
deriving DecidableEq

/-- The `int32_t` reading of a `uint32` value. -/
def asInt32 (n : Nat) : Int :=
  if n < 2147483648 then (n : Int) else (n : Int) - 4294967296

/-- The `size_t` (64-bit) conversion of an `int32_t` value. -/
def int32AsSizeT (n : Nat) : Nat :=
  if n < 2147483648 then n else 18446744073709551616 - 4294967296 + n

/-- The per-argument loop of `try_one_request`.  `i` counts the
remaining arguments, `cur` is the read offset (`start` pointer), `con`
the bytes consumed so far, `rBSF` the `requestBytesSoFar` counter.
Checks, in source order: 4 bytes available for the length word
(pointer-difference compare against the filled size); the `size_t`
overflow check `requestBytesSoFar + length > MAX_MSG_SIZE`; enough
leftover data for the string (signed compare); then the
`std::string(start, length)` construction, which aborts the process when
`length` is negative as an `int32_t`. -/
def parseArgsLoop (buf : List Nat) (size : Nat) :
    Nat → Nat → Nat → Nat → List (List Nat) → ParseResult
  | 0, _cur, con, _rBSF, acc => ParseResult.ok con acc
  | i + 1, cur, con, rBSF, acc =>
    if size < cur + 4 then ParseResult.needMore
    else
      let len := readU32 buf cur
      let cur' := cur + 4
      let con' := con + 4
      let rBSF' := rBSF + 4
      if MAX_MSG_SIZE < (rBSF' + int32AsSizeT len) % 18446744073709551616 then
        ParseResult.fatal (frameBytes (ascii "oversized request\n"))
      else if (size : Int) - cur' < asInt32 len then ParseResult.needMore
      else if asInt32 len < 0 then ParseResult.crash
      else
        let val := (List.range len).map fun j => buf.getD (cur' + j) 0
        parseArgsLoop buf size i (cur' + len) (con' + len) (rBSF' + len)
          (acc ++ [val])

/-- The parsing part of `try_one_request` over the receive buffer
contents `buf`, the filled length `size` (`read_buffer_size`) and the
parse offset `start`.  Note the first check compares `size`, not the
bytes remaining at `start`, against 4 — exactly as the source does. -/
def try_parse (buf : List Nat) (size start : Nat) : ParseResult :=
  if size < 4 then ParseResult.needMore
  else
    let nStr := readU32 buf start
    if asInt32 nStr < 2 ∨ 3 < asInt32 nStr then
      ParseResult.fatal (frameBytes (ascii "invalid command\n"))
    else parseArgsLoop buf size nStr (start + 4) 4 4 []

/-- Wire encoding of the argument list of a request:
`(u32-be arg_len || arg_bytes){n}`. -/
def encodeArgs (args : List (List Nat)) : List Nat :=
  (args.map fun a => u32be a.length ++ a).flatten

/-- Wire encoding of a whole request: `u32-be n_args` then the
arguments.  (The phase5 request format has no outer frame-length word;
the argument-count word is the first field.) -/
def encodeReq (args : List (List Nat)) : List Nat :=
  u32be args.length ++ encodeArgs args

/-- The bytes the arguments occupy on the wire: a 4-byte length word
plus the payload for each argument. -/
def sumArgs (args : List (List Nat)) : Nat :=
  (args.map fun a => 4 + a.length).sum

/-! ## The phase5 server: connection state and the read drain -/

/-- `struct Connection` (src/src/elserver.h): both buffers have capacity
`4 + MAX_MSG_SIZE`.  The buffer arrays are modelled as byte lists
(reads beyond the list return the zero-initialized contents); the
`*_size` counters are tracked exactly as the source updates them.  When
the source `memcpy`s past a buffer's capacity it corrupts adjacent
memory; the model keeps the bytes and the counter so that the overflow
is observable as `write_buffer_size` exceeding the capacity. -/
structure Connection where
  read_buffer : List Nat
  read_buffer_size : Nat
  write_buffer : List Nat
  write_buffer_size : Nat
  bytes_sent : Nat
deriving DecidableEq

/-- `Connection()`: zeroed buffers and counters. -/
def Connection.init : Connection := ⟨[], 0, [], 0, 0⟩

/-- Append a response frame at offset `write_buffer_size` and advance
the counter, as the dispatcher path of `try_one_request` does (no
capacity check). -/
def appendFrame (c : Connection) (frame : List Nat) : Connection :=
  ⟨c.read_buffer, c.read_buffer_size,
    c.write_buffer.take c.write_buffer_size ++ frame,
    c.write_buffer_size + frame.length, c.bytes_sent⟩

/-- Outcome of one read-readiness event: the connection is kept (parser
needs more bytes), destroyed after a fatal protocol error (`read_all`
returned ≤ 0), or the whole process dies from the uncaught
`std::length_error`. -/
inductive ReadOutcome where
  | keep (db : DB) (conn : Connection)
  | close (db : DB) (conn : Connection)
  | abort
deriving DecidableEq

/-- `memmove` compaction at the end of the parse loop: the unconsumed
bytes move to offset 0; bytes beyond the moved region keep their stale
contents. -/
def compact (c : Connection) (used : Nat) : Connection :=
  ⟨(c.read_buffer.drop used).take (c.read_buffer_size - used) ++
      c.read_buffer.drop (c.read_buffer_size - used),
    c.read_buffer_size - used,
    c.write_buffer, c.write_buffer_size, c.bytes_sent⟩

/-- The inner `while (true)` parse-and-dispatch loop of `read_all`:
starting at offset `start`, parse one request; on `consumed > 0` run the
dispatcher, append the response frame and continue at `start + consumed`;
on need-more compact the receive buffer and keep the connection; on a
fatal result append the error frame (which `try_one_request` also
flushes) and close.  Each completed request consumes at least 12 bytes,
so fuel `size + 1` never runs out. -/
def drainLoop (db : DB) (conn : Connection) (start : Nat) :
    Nat → ReadOutcome
  | 0 => ReadOutcome.keep db (compact conn start)
  | fuel + 1 =>
    match try_parse conn.read_buffer conn.read_buffer_size start with
    | ParseResult.needMore => ReadOutcome.keep db (compact conn start)
    | ParseResult.fatal frame => ReadOutcome.close db (appendFrame conn frame)
    | ParseResult.crash => ReadOutcome.abort
    | ParseResult.ok k cmd =>
      let r := process_request db cmd
      drainLoop r.2 (appendFrame conn (frameBytes r.1.response)) (start + k) fuel

/-- One successful `read()` of `chunk` into the tail of the receive
buffer followed by the parse-and-dispatch loop (the body of `read_all`
for one delivery; the next `read` would return EAGAIN).  The kernel
never delivers more than the free buffer space, so the theorems only
apply this with `read_buffer_size + chunk.length ≤ 4 + MAX_MSG_SIZE`. -/
def handle_read_chunk (db : DB) (conn : Connection) (chunk : List Nat) :
    ReadOutcome :=
  let buf := conn.read_buffer.take conn.read_buffer_size ++ chunk ++
    conn.read_buffer.drop (conn.read_buffer_size + chunk.length)
  let size := conn.read_buffer_size + chunk.length
  drainLoop db
    ⟨buf, size, conn.write_buffer, conn.write_buffer_size, conn.bytes_sent⟩
    0 (size + 1)

/-! ## Well-formedness invariants of the hash map -/

/-- Well-formedness of one `HashTable`: a non-NULL bucket array has
exactly `mask + 1` buckets, every node sits in the chain selected by its
own hashcode, and the `size` field counts the stored nodes. -/
def TableWF (t : HashTable) : Prop :=
  (t.table = [] ∨ t.table.length = t.mask + 1) ∧
  (∀ i < t.table.length, ∀ n ∈ t.table.getD i [], n.hashcode &&& t.mask = i) ∧
  t.size = (tableNodes t).length

/-- Well-formedness of an `HMap`: both tables are well formed, the
primary exists whenever the secondary does, and every bucket of the
secondary below the rehash cursor has been emptied. -/
def MapWF (m : HMap) : Prop :=
  TableWF m.h1 ∧ TableWF m.h2 ∧
  (m.h2.table ≠ [] → m.h1.table ≠ []) ∧
  (∀ i < m.resizing_pos, m.h2.table.getD i [] = [])

/-- The capacity relation claimed for states with a rehash in progress:
the secondary's capacity is exactly half the primary's. -/
def capInv (m : HMap) : Prop :=
  m.h2.table ≠ [] → (m.h2.mask + 1) * 2 = m.h1.mask + 1

/-- The full state invariant: well-formedness, the capacity relation,
and no node (address) stored twice. -/
def Inv (m : HMap) : Prop :=
  MapWF m ∧ capInv m ∧ (nodeAddrs m).Nodup

/-- What one run of the `hm_resizing` while loop guarantees, relating
the input tables `h1`, `h2`, cursor `pos` and budget spent `moved` to
the result `r`: well-formedness is preserved, masks and capacities are
untouched, the cursor only advances over emptied buckets, the stored
nodes are preserved as a multiset, and at most `k_resizing_work - moved`
further nodes leave `h2`. -/
instance (t : HashTable) : Decidable (TableWF t) := by
  unfold TableWF
  infer_instance

instance (m : HMap) : Decidable (MapWF m) := by
  unfold MapWF
  infer_instance

instance (m : HMap) : Decidable (capInv m) := by
  unfold capInv
  infer_instance

instance (m : HMap) : Decidable (Inv m) := by
  unfold Inv
  infer_instance

def LoopInv (h1 h2 : HashTable) (pos moved : Nat)
    (r : HashTable × HashTable × Nat) : Prop :=
  TableWF r.1 ∧ TableWF r.2.1 ∧ r.1.table ≠ [] ∧
  r.1.mask = h1.mask ∧ r.1.table.length = h1.table.length ∧
  r.2.1.mask = h2.mask ∧ r.2.1.table.length = h2.table.length ∧
  pos ≤ r.2.2 ∧ (∀ i < r.2.2, r.2.1.table.getD i [] = []) ∧
  (tableNodes r.1 ++ tableNodes r.2.1).Perm (tableNodes h1 ++ tableNodes h2) ∧
  r.2.1.size ≤ h2.size ∧
  h2.size ≤ r.2.1.size + (k_resizing_work - moved)

/-! ## Public-operation sequences on the hash map -/

/-- One public `HMap` operation, with the comparator supplied by the
caller exactly as in the C API. -/
inductive Op where
  | ins (n : HNode)
  | rm (q : HNode) (cmp : HNode → HNode → Bool)
  | find (q : HNode) (cmp : HNode → HNode → Bool)

/-- Apply one public operation to the map state. -/
def applyOp (m : HMap) : Op → HMap
  | Op.ins n => hm_insert m n
  | Op.rm q cmp => (hm_delete m q cmp).2
  | Op.find q cmp => (hm_lookup m q cmp).2

/-- Run a sequence of public operations. -/
def runOps (m : HMap) (ops : List Op) : HMap := ops.foldl applyOp m

/-- The documented precondition of `hm_insert` — the supplied entry is
not currently in any table — checked at each step of a sequence. -/
def validFrom (m : HMap) : List Op → Bool
  | [] => true
  | op :: rest =>
    (match op with
     | Op.ins n => decide (n.addr ∉ nodeAddrs m)
     | _ => true) && validFrom (applyOp m op) rest

/-! ## Abstract key-value semantics of command sequences -/

/-- The abstract effect of one parsed command on the key-value map:
`set k v` with 3 tokens updates the binding of `k` (through the
`const char *` truncation), `del k` with 2 tokens removes it, and every
other command leaves the map unchanged. -/
def specStep (σ : List Nat → Option (List Nat)) (c : List (List Nat)) :
    List Nat → Option (List Nat) :=
  match c with
  | [] => σ
  | verb :: _ =>
    if verb = ascii "set" ∧ c.length = 3 then
      fun k => if k = cstr (c.getD 1 []) then some (cstr (c.getD 2 [])) else σ k
    else if verb = ascii "del" ∧ c.length = 2 then
      fun k => if k = cstr (c.getD 1 []) then none else σ k
    else σ

/-- Run the abstract semantics over a command sequence. -/
def specRun (σ : List Nat → Option (List Nat))
    (cs : List (List (List Nat))) : List Nat → Option (List Nat) :=
  cs.foldl specStep σ

/-- Run the server dispatcher over a command sequence, threading the
database. -/
def runCommands (db : DB) (cs : List (List (List Nat))) : DB :=
  cs.foldl (fun d c => (process_request d c).2) db

/-- Server-level invariant on the map: well-formedness, the capacity
relation, every stored entry's hashcode being the FNV hash of its key,
and no two entries sharing a key. -/
def SWF (m : HMap) : Prop :=
  MapWF m ∧ capInv m ∧
  (∀ n ∈ mapNodes m, n.hashcode = str_hash n.key) ∧
  ((mapNodes m).map fun n => n.key).Nodup

/-- The abstraction relation between the stored entries and an abstract
key-value map. -/
def absRel (m : HMap) (σ : List Nat → Option (List Nat)) : Prop :=
  ∀ k v, σ k = some v ↔ ∃ n ∈ mapNodes m, n.key = k ∧ n.value = v

/-! ## Concrete scenario states -/

/-- A well-formed mid-rehash map: primary of capacity 8 (empty),
secondary of capacity 4 holding one node whose hashcode is the FNV hash
of its (empty) key. -/
def midRehash : HMap :=
  ⟨initHashTable 8, ⟨[[], [⟨2166136261, [], [], 0⟩], [], []], 3, 1⟩, 0⟩

/-- A map whose secondary (capacity 2) holds a single node in bucket 1,
so that one rehash step must first skip the empty bucket 0. -/
def skipThenDrain : HMap :=
  ⟨initHashTable 4, ⟨[[], [⟨1, [], [], 42⟩]], 1, 1⟩, 0⟩

/-- The database after `set x <1000 bytes of 'a'>`. -/
def c2db : DB := (do_set DB.init (ascii "x") (List.replicate 1000 97)).2

/-- One read delivering two pipelined `get x` requests followed by the
4-byte argument-count word of a third request. -/
def c2chunk : List Nat :=
  encodeReq [ascii "get", ascii "x"] ++ encodeReq [ascii "get", ascii "x"] ++
    u32be 2

/-- The `write_buffer_size` counter of the connection a read event
leaves behind. -/
def outcomeWbs : ReadOutcome → Nat
  | ReadOutcome.keep _ c => c.write_buffer_size
  | ReadOutcome.close _ c => c.write_buffer_size
  | ReadOutcome.abort => 0

/-- Whether a read event keeps the connection. -/
def outcomeIsKeep : ReadOutcome → Bool
  | ReadOutcome.keep _ _ => true
  | _ => false

/-- The write-buffer contents of the connection a read event leaves
behind. -/
def outcomeWb : ReadOutcome → List Nat
  | ReadOutcome.keep _ c => c.write_buffer
  | ReadOutcome.close _ c => c.write_buffer
  | ReadOutcome.abort => []

/-- A receive buffer holding one complete 16-byte `get x` request
followed by the first two bytes of the next request's argument-count
word. -/
def c3buf : List Nat := encodeReq [ascii "get", ascii "x"] ++ [0, 0]

/-- An 8-byte request prefix: argument count 2, then an argument-length
word of `0xFFFFFFF8` (`-8` as an `int32_t`). -/
def c5buf : List Nat := u32be 2 ++ u32be 4294967288

/-! ## List toolkit -/

theorem getD_oob {α : Type} (l : List α) (d : α) {i : Nat}
    (h : l.length ≤ i) : l.getD i d = d := by
  simp [List.getElem?_eq_none h]

theorem getD_set_self {α : Type} (l : List α) (x d : α) {i : Nat}
    (h : i < l.length) : (l.set i x).getD i d = x := by
  simp [List.getElem?_set_self h]

theorem getD_set_ne {α : Type} (l : List α) (x d : α) {i j : Nat}
    (h : i ≠ j) : (l.set i x).getD j d = l.getD j d := by
  simp [List.getElem?_set_ne h]

theorem flatten_set_perm {α : Type} [DecidableEq α] :
    ∀ (l : List (List α)) (x : List α) {i : Nat}, i < l.length →
      ((l.set i x).flatten ++ l.getD i []).Perm (l.flatten ++ x)
  | [], _, i, h => by simp at h
  | b :: t, x, 0, _ => by
    simp only [List.set_cons_zero, List.flatten_cons, List.getD_cons_zero]
    rw [List.perm_iff_count]
    intro a
    simp [List.count_append]
    omega
  | b :: t, x, i + 1, h => by
    have h' : i < t.length := by simpa using h
    simp only [List.set_cons_succ, List.flatten_cons, List.getD_cons_succ,
      List.append_assoc]
    exact (flatten_set_perm t x h').append_left b

theorem cons_eraseIdx_perm {α : Type} :
    ∀ (l : List α) (i : Nat) (a : α), l[i]? = some a →
      l.Perm (a :: l.eraseIdx i)
  | [], i, a, h => by simp at h
  | b :: t, 0, a, h => by
    simp only [List.getElem?_cons_zero, Option.some.injEq] at h
    subst h
    simp
  | b :: t, i + 1, a, h => by
    have ih := cons_eraseIdx_perm t i a (by simpa using h)
    simpa using (ih.cons b).trans (List.Perm.swap a b _)

theorem eraseIdx_set_self {α : Type} :
    ∀ (l : List α) (i : Nat) (x : α), (l.set i x).eraseIdx i = l.eraseIdx i
  | [], _, _ => rfl
  | _ :: _, 0, _ => rfl
  | b :: t, i + 1, x => by
    simp only [List.set_cons_succ, List.eraseIdx_cons_succ,
      eraseIdx_set_self t i x]

theorem mem_flatten_idx {α : Type} :
    ∀ {l : List (List α)} {a : α}, a ∈ l.flatten →
      ∃ i, i < l.length ∧ a ∈ l.getD i []
  | [], a, h => by simp at h
  | b :: t, a, h => by
    rw [List.flatten_cons] at h
    rcases List.mem_append.1 h with hb | ht
    · exact ⟨0, by simp, hb⟩
    · obtain ⟨i, hi, hm⟩ := mem_flatten_idx ht
      exact ⟨i + 1, by simpa using hi, by simpa using hm⟩

theorem getD_mem_flatten {α : Type} {l : List (List α)} {a : α} (i : Nat)
    (h : a ∈ l.getD i []) : a ∈ l.flatten := by
  by_cases hi : i < l.length
  · have hmem : l.getD i [] ∈ l := by
      have hg := List.getElem_mem (l := l) (n := i) hi
      simp only [List.getD_eq_getElem?_getD, List.getElem?_eq_getElem hi,
        Option.getD_some]
      exact hg
    exact List.mem_flatten_of_mem hmem h
  · rw [getD_oob _ _ (Nat.le_of_not_lt hi)] at h
    cases h

theorem flatten_replicate_nil {α : Type} :
    ∀ (k : Nat), (List.replicate k ([] : List α)).flatten = []
  | 0 => rfl
  | k + 1 => by
    simp only [List.replicate, List.flatten_cons, List.nil_append]
    exact flatten_replicate_nil k

theorem chainFind_cons (cmp : HNode → HNode → Bool) (q b : HNode)
    (t : List HNode) :
    chainFind cmp q (b :: t) =
      if cmp b q then some 0 else (chainFind cmp q t).map fun i => i + 1 :=
  rfl

theorem chainFind_eq_none {cmp : HNode → HNode → Bool} {q : HNode} :
    ∀ {l : List HNode}, chainFind cmp q l = none ↔ ∀ n ∈ l, cmp n q = false
  | [] => by simp [chainFind]
  | b :: t => by
    by_cases hb : cmp b q
    · rw [chainFind_cons, if_pos hb]
      simp only [List.mem_cons]
      constructor
      · intro h; cases h
      · intro h
        have := h b (Or.inl rfl)
        rw [hb] at this
        cases this
    · rw [chainFind_cons, if_neg hb]
      rw [Option.map_eq_none']
      rw [chainFind_eq_none (l := t)]
      constructor
      · intro h n hn
        rcases List.mem_cons.1 hn with rfl | hn'
        · exact Bool.of_not_eq_true hb
        · exact h n hn'
      · intro h n hn
        exact h n (List.mem_cons_of_mem b hn)

theorem getD_replicate_nil {α : Type} :
    ∀ (n i : Nat), (List.replicate n ([] : List α)).getD i [] = []
  | 0, _ => by simp
  | _ + 1, 0 => by simp [List.replicate]
  | n + 1, i + 1 => by
    simp only [List.replicate, List.getD_cons_succ]
    exact getD_replicate_nil n i

theorem tableNodes_nil {t : HashTable} (h : t.table = []) :
    tableNodes t = [] := by
  simp [tableNodes, h]

theorem tableWF_empty : TableWF HashTable.empty := by
  refine ⟨Or.inl rfl, ?_, rfl⟩
  intro i hi
  simp [HashTable.empty] at hi

theorem tableWF_init (n : Nat) (hn : 0 < n) : TableWF (initHashTable n) := by
  refine ⟨Or.inr ?_, ?_, ?_⟩
  · simp only [initHashTable, List.length_replicate]
    omega
  · intro i _ x hx
    rw [show (initHashTable n).table = List.replicate n [] from rfl,
      getD_replicate_nil] at hx
    cases hx
  · simp [initHashTable, tableNodes, flatten_replicate_nil]

theorem h_insert_fields (t : HashTable) (n : HNode) :
    (h_insert t n).mask = t.mask ∧ (h_insert t n).size = t.size + 1 ∧
      (h_insert t n).table.length = t.table.length := by
  refine ⟨rfl, rfl, ?_⟩
  simp [h_insert]

theorem h_insert_tableNodes_perm (t : HashTable) (n : HNode)
    (hlen : t.table.length = t.mask + 1) :
    (tableNodes (h_insert t n)).Perm (n :: tableNodes t) := by
  have hpos : n.hashcode &&& t.mask < t.table.length := by
    rw [hlen]
    exact Nat.lt_succ_of_le Nat.and_le_right
  have hp := flatten_set_perm t.table
    (n :: t.table.getD (n.hashcode &&& t.mask) []) hpos
  rw [List.append_cons] at hp
  have hc := (List.perm_append_right_iff _).1 hp
  have : tableNodes (h_insert t n) =
      (t.table.set (n.hashcode &&& t.mask)
        (n :: t.table.getD (n.hashcode &&& t.mask) [])).flatten := rfl
  rw [this]
  exact hc.trans List.perm_append_comm

theorem h_insert_wf {t : HashTable} (hwf : TableWF t) (hne : t.table ≠ [])
    (n : HNode) : TableWF (h_insert t n) := by
  obtain ⟨hlen0, hplaced, hsize⟩ := hwf
  have hlen : t.table.length = t.mask + 1 := hlen0.resolve_left hne
  have hpos : n.hashcode &&& t.mask < t.table.length := by
    rw [hlen]
    exact Nat.lt_succ_of_le Nat.and_le_right
  refine ⟨Or.inr (by simp [h_insert, hlen]), ?_, ?_⟩
  · intro i hi x hx
    have hi' : i < t.table.length := by
      simpa [h_insert] using hi
    have hmask : (h_insert t n).mask = t.mask := rfl
    rw [hmask]
    by_cases hij : (n.hashcode &&& t.mask) = i
    · subst hij
      rw [show (h_insert t n).table =
          t.table.set (n.hashcode &&& t.mask)
            (n :: t.table.getD (n.hashcode &&& t.mask) []) from rfl,
        getD_set_self _ _ _ hpos] at hx
      rcases List.mem_cons.1 hx with rfl | hx'
      · rfl
      · exact hplaced _ hi' x hx'
    · rw [show (h_insert t n).table =
          t.table.set (n.hashcode &&& t.mask)
            (n :: t.table.getD (n.hashcode &&& t.mask) []) from rfl,
        getD_set_ne _ _ _ hij] at hx
      exact hplaced i hi' x hx
  · have hp := h_insert_tableNodes_perm t n hlen
    have hl := hp.length_eq
    simp only [List.length_cons] at hl
    show t.size + 1 = (tableNodes (h_insert t n)).length
    omega

theorem h_detach_fields (t : HashTable) (b i : Nat) :
    (h_detach t b i).mask = t.mask ∧ (h_detach t b i).size = t.size - 1 ∧
      (h_detach t b i).table.length = t.table.length := by
  refine ⟨rfl, rfl, ?_⟩
  simp [h_detach]

theorem h_detach_perm (t : HashTable) (b i : Nat) (a : HNode)
    (hgot : (t.table.getD b [])[i]? = some a) :
    (tableNodes t).Perm (a :: tableNodes (h_detach t b i)) := by
  have hbne : t.table.getD b [] ≠ [] := by
    intro he
    rw [he] at hgot
    simp at hgot
  have hpos : b < t.table.length := by
    by_contra hle
    exact hbne (getD_oob _ _ (Nat.le_of_not_lt hle))
  have hB := cons_eraseIdx_perm _ i a hgot
  have hp := flatten_set_perm t.table ((t.table.getD b []).eraseIdx i) hpos
  have hp2 := ((hB.append_left
    ((t.table.set b ((t.table.getD b []).eraseIdx i)).flatten)).symm).trans hp
  rw [List.append_cons] at hp2
  have hc := (List.perm_append_right_iff _).1 hp2
  have : tableNodes (h_detach t b i) =
      (t.table.set b ((t.table.getD b []).eraseIdx i)).flatten := rfl
  rw [show tableNodes t = t.table.flatten from rfl, this]
  exact (hc.symm).trans List.perm_append_comm

theorem h_detach_wf {t : HashTable} (hwf : TableWF t) {b i : Nat} {a : HNode}
    (hgot : (t.table.getD b [])[i]? = some a) : TableWF (h_detach t b i) := by
  obtain ⟨hlen0, hplaced, hsize⟩ := hwf
  have hbne : t.table.getD b [] ≠ [] := by
    intro he
    rw [he] at hgot
    simp at hgot
  have hpos : b < t.table.length := by
    by_contra hle
    exact hbne (getD_oob _ _ (Nat.le_of_not_lt hle))
  have hB := cons_eraseIdx_perm _ i a hgot
  refine ⟨?_, ?_, ?_⟩
  · rcases hlen0 with h0 | h0
    · rw [h0] at hpos
      cases hpos
    · exact Or.inr (by simp [h_detach, h0])
  · intro j hj x hx
    have hj' : j < t.table.length := by
      simpa [h_detach] using hj
    have hmask : (h_detach t b i).mask = t.mask := rfl
    rw [hmask]
    by_cases hbj : b = j
    · subst hbj
      rw [show (h_detach t b i).table =
          t.table.set b ((t.table.getD b []).eraseIdx i) from rfl,
        getD_set_self _ _ _ hpos] at hx
      have hxB : x ∈ t.table.getD b [] :=
        hB.mem_iff.2 (List.mem_cons_of_mem a hx)
      exact hplaced b hj' x hxB
    · rw [show (h_detach t b i).table =
          t.table.set b ((t.table.getD b []).eraseIdx i) from rfl,
        getD_set_ne _ _ _ hbj] at hx
      exact hplaced j hj' x hx
  · have hp := h_detach_perm t b i a hgot
    have hl := hp.length_eq
    simp only [List.length_cons] at hl
    show t.size - 1 = (tableNodes (h_detach t b i)).length
    omega

theorem hm_resizing_loop_succ (h1 h2 : HashTable) (pos moved fuel : Nat) :
    hm_resizing_loop h1 h2 pos moved (fuel + 1) =
      if moved < k_resizing_work ∧ 0 < h2.size then
        match h2.table.getD pos [] with
        | [] => hm_resizing_loop h1 h2 (pos + 1) moved fuel
        | n :: rest =>
          hm_resizing_loop (h_insert h1 n)
            ⟨h2.table.set pos rest, h2.mask, h2.size - 1⟩ pos (moved + 1) fuel
      else (h1, h2, pos) := rfl

theorem resizing_loop_spec :
    ∀ (fuel : Nat) (h1 h2 : HashTable) (pos moved : Nat),
      TableWF h1 → TableWF h2 → h1.table ≠ [] →
      (∀ i < pos, h2.table.getD i [] = []) →
      LoopInv h1 h2 pos moved (hm_resizing_loop h1 h2 pos moved fuel)
  | 0, h1, h2, pos, moved, hw1, hw2, hne, hcur =>
    ⟨hw1, hw2, hne, rfl, rfl, rfl, rfl, Nat.le_refl _, hcur,
      List.Perm.refl _, Nat.le_refl _, Nat.le_add_right _ _⟩
  | fuel + 1, h1, h2, pos, moved, hw1, hw2, hne, hcur => by
    rw [hm_resizing_loop_succ]
    by_cases hcond : moved < k_resizing_work ∧ 0 < h2.size
    · rw [if_pos hcond]
      cases hb : h2.table.getD pos [] with
      | nil =>
        have hcur' : ∀ i < pos + 1, h2.table.getD i [] = [] := by
          intro i hi
          rcases Nat.lt_succ_iff_lt_or_eq.1 hi with hi' | rfl
          · exact hcur i hi'
          · exact hb
        obtain ⟨a1, a2, a3, a4, a5, a6, a7, a8, a9, a10, a11, a12⟩ :=
          resizing_loop_spec fuel h1 h2 (pos + 1) moved hw1 hw2 hne hcur'
        exact ⟨a1, a2, a3, a4, a5, a6, a7,
          Nat.le_trans (Nat.le_succ _) a8, a9, a10, a11, a12⟩
      | cons n rest =>
        show LoopInv h1 h2 pos moved
          (hm_resizing_loop (h_insert h1 n)
            ⟨h2.table.set pos rest, h2.mask, h2.size - 1⟩ pos (moved + 1) fuel)
        have hgot : (h2.table.getD pos [])[0]? = some n := by
          rw [hb]
          simp
        have hdet : (⟨h2.table.set pos rest, h2.mask, h2.size - 1⟩ : HashTable) =
            h_detach h2 pos 0 := by
          unfold h_detach
          rw [hb]
          simp
        have hlen1 : h1.table.length = h1.mask + 1 := hw1.1.resolve_left hne
        have hw1' : TableWF (h_insert h1 n) := h_insert_wf hw1 hne n
        have hw2' : TableWF
            (⟨h2.table.set pos rest, h2.mask, h2.size - 1⟩ : HashTable) := by
          rw [hdet]
          exact h_detach_wf hw2 hgot
        have hne' : (h_insert h1 n).table ≠ [] := by
          intro h
          apply hne
          have hl := (h_insert_fields h1 n).2.2
          rw [h] at hl
          exact List.eq_nil_of_length_eq_zero hl.symm
        have hcur' : ∀ i < pos,
            (⟨h2.table.set pos rest, h2.mask, h2.size - 1⟩ : HashTable).table.getD
              i [] = [] := by
          intro i hi
          show (h2.table.set pos rest).getD i [] = []
          rw [getD_set_ne _ _ _ (Nat.ne_of_gt hi)]
          exact hcur i hi
        obtain ⟨a1, a2, a3, a4, a5, a6, a7, a8, a9, a10, a11, a12⟩ :=
          resizing_loop_spec fuel (h_insert h1 n)
            ⟨h2.table.set pos rest, h2.mask, h2.size - 1⟩ pos (moved + 1)
            hw1' hw2' hne' hcur'
        have hstep : (tableNodes (h_insert h1 n) ++
            tableNodes (⟨h2.table.set pos rest, h2.mask, h2.size - 1⟩ : HashTable)).Perm
            (tableNodes h1 ++ tableNodes h2) := by
          have hpi := h_insert_tableNodes_perm h1 n hlen1
          have hpd : (tableNodes h2).Perm (n ::
              tableNodes (⟨h2.table.set pos rest, h2.mask, h2.size - 1⟩ : HashTable)) := by
            rw [hdet]
            exact h_detach_perm h2 pos 0 n hgot
          have s1 := hpi.append_right
            (tableNodes (⟨h2.table.set pos rest, h2.mask, h2.size - 1⟩ : HashTable))
          have s4 := hpd.symm.append_left (tableNodes h1)
          refine s1.trans (List.Perm.trans ?_ s4)
          rw [List.cons_append]
          exact List.perm_middle.symm
        refine ⟨a1, a2, a3, ?_, ?_, a6, ?_, a8, a9, a10.trans hstep, ?_, ?_⟩
        · rw [a4]
          rfl
        · rw [a5]
          exact (h_insert_fields h1 n).2.2
        · rw [a7]
          simp
        · exact Nat.le_trans a11 (Nat.sub_le _ _)
        · have hk : k_resizing_work = 128 := rfl
          rw [hk] at a12 ⊢
          have hm128 : moved < 128 := by
            have := hcond.1
            rwa [hk] at this
          have hs0 : 0 < h2.size := hcond.2
          have hss : (⟨h2.table.set pos rest, h2.mask, h2.size - 1⟩ :
              HashTable).size = h2.size - 1 := rfl
          rw [hss] at a12
          omega
    · rw [if_neg hcond]
      exact ⟨hw1, hw2, hne, rfl, rfl, rfl, rfl, Nat.le_refl _, hcur,
        List.Perm.refl _, Nat.le_refl _, Nat.le_add_right _ _⟩

theorem hm_resizing_eq_of_empty {m : HMap} (he : m.h2.table = []) :
    hm_resizing m = m := by
  unfold hm_resizing
  rw [if_pos (by simp [he])]

theorem hm_resizing_eq_loop {m : HMap} (he : m.h2.table ≠ []) :
    hm_resizing m =
      if (hm_resizing_loop m.h1 m.h2 m.resizing_pos 0
          (k_resizing_work + m.h2.table.length)).2.1.size = 0 then
        ⟨(hm_resizing_loop m.h1 m.h2 m.resizing_pos 0
            (k_resizing_work + m.h2.table.length)).1, HashTable.empty,
          (hm_resizing_loop m.h1 m.h2 m.resizing_pos 0
            (k_resizing_work + m.h2.table.length)).2.2⟩
      else
        ⟨(hm_resizing_loop m.h1 m.h2 m.resizing_pos 0
            (k_resizing_work + m.h2.table.length)).1,
          (hm_resizing_loop m.h1 m.h2 m.resizing_pos 0
            (k_resizing_work + m.h2.table.length)).2.1,
          (hm_resizing_loop m.h1 m.h2 m.resizing_pos 0
            (k_resizing_work + m.h2.table.length)).2.2⟩ := by
  unfold hm_resizing
  rw [if_neg (by simp [he])]

theorem hm_resizing_spec (m : HMap) (hwf : MapWF m) :
    MapWF (hm_resizing m) ∧
    (mapNodes (hm_resizing m)).Perm (mapNodes m) ∧
    (hm_resizing m).h1.mask = m.h1.mask ∧
    (hm_resizing m).h1.table.length = m.h1.table.length ∧
    ((hm_resizing m).h1.table = [] → m.h1.table = []) ∧
    ((hm_resizing m).h2.table ≠ [] →
      (hm_resizing m).h2.mask = m.h2.mask ∧ m.h2.table ≠ []) ∧
    (hm_resizing m).h2.size ≤ m.h2.size ∧
    m.h2.size ≤ (hm_resizing m).h2.size + k_resizing_work ∧
    m.resizing_pos ≤ (hm_resizing m).resizing_pos ∧
    (hm_resizing m).h1.size + (hm_resizing m).h2.size =
      m.h1.size + m.h2.size := by
  by_cases he : m.h2.table = []
  · rw [hm_resizing_eq_of_empty he]
    exact ⟨hwf, List.Perm.refl _, rfl, rfl, fun h => h, fun h => ⟨rfl, h⟩,
      Nat.le_refl _, Nat.le_add_right _ _, Nat.le_refl _, rfl⟩
  · obtain ⟨hw1, hw2, h12, hcur⟩ := hwf
    obtain ⟨a1, a2, a3, a4, a5, a6, a7, a8, a9, a10, a11, a12⟩ :=
      resizing_loop_spec (k_resizing_work + m.h2.table.length) m.h1 m.h2
        m.resizing_pos 0 hw1 hw2 (h12 he) hcur
    rw [hm_resizing_eq_loop he]
    by_cases hz : (hm_resizing_loop m.h1 m.h2 m.resizing_pos 0
        (k_resizing_work + m.h2.table.length)).2.1.size = 0
    · rw [if_pos hz]
      have hnil : tableNodes (hm_resizing_loop m.h1 m.h2 m.resizing_pos 0
          (k_resizing_work + m.h2.table.length)).2.1 = [] := by
        apply List.eq_nil_of_length_eq_zero
        have := a2.2.2
        rw [hz] at this
        exact this.symm
      refine ⟨⟨a1, tableWF_empty, ?_, ?_⟩, ?_, a4, a5, fun h => absurd h a3,
        ?_, ?_, ?_, a8, ?_⟩
      · intro h
        simp [HashTable.empty] at h
      · intro i _
        simp [HashTable.empty]
      · show (tableNodes (hm_resizing_loop m.h1 m.h2 m.resizing_pos 0
            (k_resizing_work + m.h2.table.length)).1 ++
          tableNodes HashTable.empty).Perm (mapNodes m)
        rw [show tableNodes HashTable.empty = [] from rfl, List.append_nil]
        have := a10
        rw [hnil, List.append_nil] at this
        exact this
      · intro h
        simp [HashTable.empty] at h
      · exact Nat.zero_le _
      · show m.h2.size ≤ 0 + k_resizing_work
        rw [Nat.zero_add]
        have := a12
        rw [hz] at this
        simpa using this
      · show (hm_resizing_loop m.h1 m.h2 m.resizing_pos 0
            (k_resizing_work + m.h2.table.length)).1.size + 0 =
          m.h1.size + m.h2.size
        have hq := a10.length_eq
        rw [List.length_append, List.length_append, hnil] at hq
        have e1 := a1.2.2
        have e2 := hw1.2.2
        have e3 := hw2.2.2
        simp only [List.length_nil] at hq
        omega
    · rw [if_neg hz]
      refine ⟨⟨a1, a2, fun _ => a3, a9⟩, a10, a4, a5, fun h => absurd h a3,
        fun _ => ⟨a6, he⟩, a11, a12, a8, ?_⟩
      show (hm_resizing_loop m.h1 m.h2 m.resizing_pos 0
          (k_resizing_work + m.h2.table.length)).1.size +
        (hm_resizing_loop m.h1 m.h2 m.resizing_pos 0
          (k_resizing_work + m.h2.table.length)).2.1.size =
        m.h1.size + m.h2.size
      have hq := a10.length_eq
      rw [List.length_append, List.length_append] at hq
      have e1 := a1.2.2
      have e2 := a2.2.2
      have e3 := hw1.2.2
      have e4 := hw2.2.2
      omega

theorem chainFind_eq_some {cmp : HNode → HNode → Bool} {q : HNode} :
    ∀ {l : List HNode} {i : Nat}, chainFind cmp q l = some i →
      ∃ n, l[i]? = some n ∧ cmp n q = true
  | [], i, h => by simp [chainFind] at h
  | b :: t, i, h => by
    by_cases hb : cmp b q
    · rw [chainFind_cons, if_pos hb] at h
      rcases h with h
      exact ⟨b, by simp [← Option.some.inj h], hb⟩
    · rw [chainFind_cons, if_neg hb] at h
      rcases Option.map_eq_some'.1 h with ⟨j, hj, rfl⟩
      obtain ⟨n, hn, hc⟩ := chainFind_eq_some hj
      exact ⟨n, by simpa using hn, hc⟩

theorem h_lookup_none_spec {t : HashTable} {q : HNode}
    {cmp : HNode → HNode → Bool} (hwf : TableWF t)
    (h : h_lookup t q cmp = none) {n : HNode} (hn : n ∈ tableNodes t)
    (hh : n.hashcode &&& t.mask = q.hashcode &&& t.mask) : cmp n q = false := by
  unfold h_lookup at h
  split at h
  · rename_i hemp
    rw [tableNodes_nil (List.isEmpty_iff.1 hemp)] at hn
    cases hn
  · obtain ⟨i, hi, hmem⟩ := mem_flatten_idx hn
    have hplace := hwf.2.1 i hi n hmem
    have hbq : q.hashcode &&& t.mask = i := (hh.symm).trans hplace
    have hbe : bucketAt t q.hashcode = t.table.getD i [] := by
      rw [bucketAt, hbq]
    exact (chainFind_eq_none.1 h) n (hbe ▸ hmem)

theorem h_lookup_some_spec {t : HashTable} {q : HNode}
    {cmp : HNode → HNode → Bool} {i : Nat} (h : h_lookup t q cmp = some i) :
    ∃ n, (bucketAt t q.hashcode)[i]? = some n ∧ cmp n q = true ∧
      n ∈ tableNodes t := by
  unfold h_lookup at h
  split at h
  · cases h
  · obtain ⟨n, hn, hc⟩ := chainFind_eq_some h
    exact ⟨n, hn, hc,
      getD_mem_flatten (q.hashcode &&& t.mask) (List.getElem?_mem hn)⟩

theorem hm_lookup_slot_eq (m : HMap) (q : HNode)
    (cmp : HNode → HNode → Bool) :
    hm_lookup_slot m q cmp =
      match h_lookup (hm_resizing m).h1 q cmp with
      | some i => (some (Slot.s1 i), hm_resizing m)
      | none =>
        match h_lookup (hm_resizing m).h2 q cmp with
        | some i => (some (Slot.s2 i), hm_resizing m)
        | none => (none, hm_resizing m) := rfl

theorem hm_lookup_slot_state (m : HMap) (q : HNode)
    (cmp : HNode → HNode → Bool) :
    (hm_lookup_slot m q cmp).2 = hm_resizing m := by
  rw [hm_lookup_slot_eq]
  cases h_lookup (hm_resizing m).h1 q cmp
  · cases h_lookup (hm_resizing m).h2 q cmp <;> rfl
  · rfl

theorem hm_lookup_slot_spec (m : HMap) (q : HNode)
    (cmp : HNode → HNode → Bool) (hwf : MapWF m) :
    (∀ s, (hm_lookup_slot m q cmp).1 = some s →
      ∃ n, slotGet (hm_resizing m) q.hashcode s = some n ∧ cmp n q = true ∧
        n ∈ mapNodes m) ∧
    ((∀ n ∈ mapNodes m, cmp n q = true → n.hashcode = q.hashcode) →
      (hm_lookup_slot m q cmp).1 = none → ∀ n ∈ mapNodes m, cmp n q = false) := by
  obtain ⟨mwf, hperm, _⟩ := hm_resizing_spec m hwf
  rw [hm_lookup_slot_eq]
  cases hl1 : h_lookup (hm_resizing m).h1 q cmp with
  | some i =>
    refine ⟨?_, ?_⟩
    · intro s hs
      cases hs
      obtain ⟨n, hn, hc, hmem⟩ := h_lookup_some_spec hl1
      exact ⟨n, hn, hc, hperm.mem_iff.1 (List.mem_append_left _ hmem)⟩
    · intro _ hs
      cases hs
  | none =>
    cases hl2 : h_lookup (hm_resizing m).h2 q cmp with
    | some i =>
      refine ⟨?_, ?_⟩
      · intro s hs
        cases hs
        obtain ⟨n, hn, hc, hmem⟩ := h_lookup_some_spec hl2
        exact ⟨n, hn, hc, hperm.mem_iff.1 (List.mem_append_right _ hmem)⟩
      · intro _ hs
        cases hs
    | none =>
      constructor
      · intro s hs
        cases hs
      intro hcompat _ n hn
      by_cases hc : cmp n q = true
      · have hhash : n.hashcode = q.hashcode := hcompat n hn hc
        have hn1 : n ∈ mapNodes (hm_resizing m) := hperm.mem_iff.2 hn
        rcases List.mem_append.1 hn1 with hm1 | hm2
        · have := h_lookup_none_spec mwf.1 hl1 hm1 (by rw [hhash])
          rw [hc] at this
          cases this
        · have := h_lookup_none_spec mwf.2.1 hl2 hm2 (by rw [hhash])
          rw [hc] at this
          cases this
      · exact Bool.of_not_eq_true hc

theorem hm_lookup_state (m : HMap) (q : HNode) (cmp : HNode → HNode → Bool) :
    (hm_lookup m q cmp).2 = hm_resizing m :=
  hm_lookup_slot_state m q cmp

theorem hm_lookup_spec (m : HMap) (q : HNode) (cmp : HNode → HNode → Bool)
    (hwf : MapWF m) :
    (∀ n, (hm_lookup m q cmp).1 = some n →
      cmp n q = true ∧ n ∈ mapNodes m) ∧
    ((∀ n ∈ mapNodes m, cmp n q = true → n.hashcode = q.hashcode) →
      (hm_lookup m q cmp).1 = none → ∀ n ∈ mapNodes m, cmp n q = false) := by
  obtain ⟨hsome, hnone⟩ := hm_lookup_slot_spec m q cmp hwf
  have hv : (hm_lookup m q cmp).1 =
      (hm_lookup_slot m q cmp).1.bind
        (fun s => slotGet (hm_lookup_slot m q cmp).2 q.hashcode s) := rfl
  constructor
  · intro n hn
    rw [hv] at hn
    cases hs : (hm_lookup_slot m q cmp).1 with
    | none => rw [hs] at hn; cases hn
    | some s =>
      rw [hs] at hn
      obtain ⟨n', hn', hc, hmem⟩ := hsome s hs
      rw [hm_lookup_slot_state] at hn
      simp only [Option.some_bind] at hn
      rw [hn'] at hn
      cases hn
      exact ⟨hc, hmem⟩
  · intro hcompat h0
    rw [hv] at h0
    cases hs : (hm_lookup_slot m q cmp).1 with
    | none => exact hnone hcompat hs
    | some s =>
      rw [hs] at h0
      obtain ⟨n', hn', _, _⟩ := hsome s hs
      rw [hm_lookup_slot_state] at h0
      simp only [Option.some_bind] at h0
      rw [hn'] at h0
      cases h0

theorem hm_delete_eq (m : HMap) (q : HNode) (cmp : HNode → HNode → Bool) :
    hm_delete m q cmp =
      match h_lookup (hm_resizing m).h1 q cmp with
      | some i =>
        ((bucketAt (hm_resizing m).h1 q.hashcode)[i]?,
          ⟨h_detach (hm_resizing m).h1 (q.hashcode &&& (hm_resizing m).h1.mask) i,
            (hm_resizing m).h2, (hm_resizing m).resizing_pos⟩)
      | none =>
        match h_lookup (hm_resizing m).h2 q cmp with
        | some i =>
          ((bucketAt (hm_resizing m).h2 q.hashcode)[i]?,
            ⟨(hm_resizing m).h1,
              h_detach (hm_resizing m).h2 (q.hashcode &&& (hm_resizing m).h2.mask) i,
              (hm_resizing m).resizing_pos⟩)
        | none => (none, hm_resizing m) := rfl

theorem hm_delete_spec (m : HMap) (q : HNode) (cmp : HNode → HNode → Bool)
    (hwf : MapWF m) :
    MapWF (hm_delete m q cmp).2 ∧
    (hm_delete m q cmp).2.h1.mask = m.h1.mask ∧
    ((hm_delete m q cmp).2.h2.table ≠ [] →
      (hm_delete m q cmp).2.h2.mask = m.h2.mask ∧ m.h2.table ≠ []) ∧
    ((∀ n ∈ mapNodes m, cmp n q = true → n.hashcode = q.hashcode) →
      (hm_delete m q cmp).1 = none → ∀ n ∈ mapNodes m, cmp n q = false) ∧
    ((hm_delete m q cmp).1 = none → (hm_delete m q cmp).2 = hm_resizing m) ∧
    (∀ a, (hm_delete m q cmp).1 = some a →
      cmp a q = true ∧ (mapNodes m).Perm (a :: mapNodes (hm_delete m q cmp).2)) := by
  obtain ⟨mwf, hperm, hmk1, hml1, hm1ne, hm2c, _, _, _, _⟩ :=
    hm_resizing_spec m hwf
  rw [hm_delete_eq]
  cases hl1 : h_lookup (hm_resizing m).h1 q cmp with
  | some i =>
    obtain ⟨a, ha, hac, hamem⟩ := h_lookup_some_spec hl1
    have hgot : ((hm_resizing m).h1.table.getD
        (q.hashcode &&& (hm_resizing m).h1.mask) [])[i]? = some a := ha
    have hfields := h_detach_fields (hm_resizing m).h1
      (q.hashcode &&& (hm_resizing m).h1.mask) i
    refine ⟨⟨h_detach_wf mwf.1 hgot, mwf.2.1, ?_, mwf.2.2.2⟩, ?_, ?_, ?_,
      fun h0 => absurd (ha.symm.trans h0) (by simp), ?_⟩
    · intro h2ne
      have hne1 := mwf.2.2.1 h2ne
      have : 0 < (h_detach (hm_resizing m).h1
          (q.hashcode &&& (hm_resizing m).h1.mask) i).table.length := by
        rw [hfields.2.2]
        exact List.length_pos.2 hne1
      exact List.length_pos.1 this
    · rw [show (h_detach (hm_resizing m).h1
        (q.hashcode &&& (hm_resizing m).h1.mask) i).mask =
          (hm_resizing m).h1.mask from hfields.1]
      exact hmk1
    · exact hm2c
    · intro _ h0
      cases ha.symm.trans h0
    · intro a' ha'
      have he := ha.symm.trans ha'
      injection he with he2
      subst he2
      refine ⟨hac, ?_⟩
      have hd := h_detach_perm (hm_resizing m).h1
        (q.hashcode &&& (hm_resizing m).h1.mask) i a hgot
      have : (mapNodes (hm_resizing m)).Perm
          (a :: (tableNodes (h_detach (hm_resizing m).h1
            (q.hashcode &&& (hm_resizing m).h1.mask) i) ++
            tableNodes (hm_resizing m).h2)) := by
        have := hd.append_right (tableNodes (hm_resizing m).h2)
        rw [List.cons_append] at this
        exact this
      exact (hperm.symm).trans this
  | none =>
    cases hl2 : h_lookup (hm_resizing m).h2 q cmp with
    | some i =>
      obtain ⟨a, ha, hac, hamem⟩ := h_lookup_some_spec hl2
      have hgot : ((hm_resizing m).h2.table.getD
          (q.hashcode &&& (hm_resizing m).h2.mask) [])[i]? = some a := ha
      have hfields := h_detach_fields (hm_resizing m).h2
        (q.hashcode &&& (hm_resizing m).h2.mask) i
      have hbne : (hm_resizing m).h2.table.getD
          (q.hashcode &&& (hm_resizing m).h2.mask) [] ≠ [] := by
        intro he
        rw [he] at hgot
        simp at hgot
      have hm2ne : (hm_resizing m).h2.table ≠ [] := by
        intro he
        apply hbne
        rw [he]
        simp
      refine ⟨⟨mwf.1, h_detach_wf mwf.2.1 hgot, ?_, ?_⟩, hmk1, ?_, ?_,
        fun h0 => absurd (ha.symm.trans h0) (by simp), ?_⟩
      · intro _
        exact mwf.2.2.1 hm2ne
      · intro j hj
        by_cases hbj : (q.hashcode &&& (hm_resizing m).h2.mask) = j
        · exfalso
          apply hbne
          rw [hbj]
          exact mwf.2.2.2 j hj
        · show ((hm_resizing m).h2.table.set _ _).getD j [] = []
          rw [getD_set_ne _ _ _ hbj]
          exact mwf.2.2.2 j hj
      · intro h2ne
        have : 0 < (h_detach (hm_resizing m).h2
            (q.hashcode &&& (hm_resizing m).h2.mask) i).table.length :=
          List.length_pos.2 h2ne
        rw [hfields.2.2] at this
        have := hm2c (List.length_pos.1 this)
        rw [hfields.1]
        exact this
      · intro _ h0
        cases ha.symm.trans h0
      · intro a' ha'
        have he := ha.symm.trans ha'
        injection he with he2
        subst he2
        refine ⟨hac, ?_⟩
        have hd := h_detach_perm (hm_resizing m).h2
          (q.hashcode &&& (hm_resizing m).h2.mask) i a hgot
        have hstep : (mapNodes (hm_resizing m)).Perm
            (a :: (tableNodes (hm_resizing m).h1 ++
              tableNodes (h_detach (hm_resizing m).h2
                (q.hashcode &&& (hm_resizing m).h2.mask) i))) := by
          have h1 := hd.append_left (tableNodes (hm_resizing m).h1)
          exact h1.trans List.perm_middle
        exact (hperm.symm).trans hstep
    | none =>
      refine ⟨mwf, hmk1, hm2c, ?_, fun _ => rfl, ?_⟩
      · intro hcompat _ n hn
        by_cases hc : cmp n q = true
        · have hhash : n.hashcode = q.hashcode := hcompat n hn hc
          have hn1 : n ∈ mapNodes (hm_resizing m) := hperm.mem_iff.2 hn
          rcases List.mem_append.1 hn1 with hx | hx
          · have := h_lookup_none_spec mwf.1 hl1 hx (by rw [hhash])
            rw [hc] at this
            cases this
          · have := h_lookup_none_spec mwf.2.1 hl2 hx (by rw [hhash])
            rw [hc] at this
            cases this
        · exact Bool.of_not_eq_true hc
      · intro a ha
        cases ha

theorem capInv_resizing {m : HMap} (hwf : MapWF m) (hcap : capInv m) :
    capInv (hm_resizing m) := by
  obtain ⟨_, _, hmk1, _, _, hm2c, _⟩ := hm_resizing_spec m hwf
  intro h2ne
  obtain ⟨hmask, hne⟩ := hm2c h2ne
  rw [hmask, hmk1]
  exact hcap hne

theorem insertStep1_spec (m : HMap) (hwf : MapWF m) :
    MapWF (insertStep1 m) ∧ mapNodes (insertStep1 m) = mapNodes m ∧
    (insertStep1 m).h1.table ≠ [] ∧
    (capInv m → capInv (insertStep1 m)) ∧
    (insertStep1 m).h2 = m.h2 := by
  unfold insertStep1
  by_cases he : m.h1.table.isEmpty
  · rw [if_pos he]
    have hnil : m.h1.table = [] := List.isEmpty_iff.1 he
    have h2nil : m.h2.table = [] := by
      by_contra h2ne
      exact (hwf.2.2.1 h2ne) hnil
    refine ⟨⟨tableWF_init 4 (by omega), hwf.2.1, ?_, hwf.2.2.2⟩, ?_, ?_, ?_, rfl⟩
    · intro _
      simp [initHashTable]
    · show tableNodes (initHashTable 4) ++ tableNodes m.h2 =
        tableNodes m.h1 ++ tableNodes m.h2
      rw [tableNodes_nil hnil]
      rw [show tableNodes (initHashTable 4) = [] from by
        simp [initHashTable, tableNodes, flatten_replicate_nil]]
    · show (initHashTable 4).table ≠ []
      simp [initHashTable]
    · intro _ h2ne
      exact absurd h2nil h2ne
  · rw [if_neg he]
    exact ⟨hwf, rfl, fun h => he (by simp [h]), fun h => h, rfl⟩

theorem initHashTable_ne_nil {k : Nat} (hk : 0 < k) :
    (initHashTable k).table ≠ [] := by
  simp only [initHashTable, ne_eq, List.replicate_eq_nil_iff]
  omega

theorem insertStep2_spec (m : HMap) (n : HNode) (hwf : MapWF m) :
    MapWF (insertStep2 m n) ∧
    (mapNodes (insertStep2 m n)).Perm (n :: mapNodes m) ∧
    (insertStep2 m n).h1.table ≠ [] ∧
    (capInv m → capInv (insertStep2 m n)) ∧
    (insertStep2 m n).h2 = m.h2 := by
  obtain ⟨s1wf, s1nodes, s1ne, s1cap, s1h2⟩ := insertStep1_spec m hwf
  have hlen : (insertStep1 m).h1.table.length = (insertStep1 m).h1.mask + 1 :=
    s1wf.1.1.resolve_left s1ne
  have hne2 : (h_insert (insertStep1 m).h1 n).table ≠ [] := by
    intro h
    have hl := (h_insert_fields (insertStep1 m).h1 n).2.2
    rw [h] at hl
    exact s1ne (List.eq_nil_of_length_eq_zero hl.symm)
  refine ⟨⟨h_insert_wf s1wf.1 s1ne n, s1wf.2.1, fun _ => hne2, s1wf.2.2.2⟩,
    ?_, hne2, ?_, s1h2⟩
  · have hp := (h_insert_tableNodes_perm (insertStep1 m).h1 n hlen).append_right
      (tableNodes (insertStep1 m).h2)
    rw [List.cons_append] at hp
    have he : n :: (tableNodes (insertStep1 m).h1 ++
        tableNodes (insertStep1 m).h2) = n :: mapNodes m := by
      rw [show tableNodes (insertStep1 m).h1 ++ tableNodes (insertStep1 m).h2 =
        mapNodes (insertStep1 m) from rfl, s1nodes]
    exact he ▸ hp
  · intro hc h2ne
    have hcap1 := s1cap hc
    have h2eq : (insertStep2 m n).h2 = (insertStep1 m).h2 := rfl
    rw [h2eq] at h2ne
    show ((insertStep1 m).h2.mask + 1) * 2 = (h_insert (insertStep1 m).h1 n).mask + 1
    rw [show (h_insert (insertStep1 m).h1 n).mask = (insertStep1 m).h1.mask from rfl]
    exact hcap1 h2ne

theorem insertStep3_spec (m : HMap) (n : HNode) (hwf : MapWF m) :
    MapWF (insertStep3 m n) ∧
    (mapNodes (insertStep3 m n)).Perm (n :: mapNodes m) ∧
    (capInv m → capInv (insertStep3 m n)) ∧
    (insertStep3 m n).h1.table ≠ [] := by
  obtain ⟨s2wf, s2nodes, s2ne, s2cap, _⟩ := insertStep2_spec m n hwf
  unfold insertStep3
  by_cases hcond : (insertStep2 m n).h2.table.isEmpty = true ∧
      ((insertStep2 m n).h1.mask + 1) * k_max_load_factor ≤
        (insertStep2 m n).h1.size
  · rw [if_pos hcond]
    have h2nil : (insertStep2 m n).h2.table = [] := List.isEmpty_iff.1 hcond.1
    have hpos2 : 0 < ((insertStep2 m n).h1.mask + 1) * 2 := by omega
    refine ⟨⟨tableWF_init _ hpos2, s2wf.1, fun _ => initHashTable_ne_nil hpos2,
      fun i hi => absurd hi (Nat.not_lt_zero i)⟩, ?_, ?_, initHashTable_ne_nil hpos2⟩
    · have hmn : mapNodes (hm_trigger_rehashing (insertStep2 m n)) =
          mapNodes (insertStep2 m n) := by
        show tableNodes (initHashTable (((insertStep2 m n).h1.mask + 1) * 2)) ++
            tableNodes (insertStep2 m n).h1 =
          tableNodes (insertStep2 m n).h1 ++ tableNodes (insertStep2 m n).h2
        rw [tableNodes_nil h2nil, List.append_nil,
          show tableNodes (initHashTable (((insertStep2 m n).h1.mask + 1) * 2)) =
            [] from by simp [initHashTable, tableNodes, flatten_replicate_nil],
          List.nil_append]
      rw [hmn]
      exact s2nodes
    · intro _ _
      show ((insertStep2 m n).h1.mask + 1) * 2 =
        (initHashTable (((insertStep2 m n).h1.mask + 1) * 2)).mask + 1
      show ((insertStep2 m n).h1.mask + 1) * 2 =
        ((insertStep2 m n).h1.mask + 1) * 2 - 1 + 1
      omega
  · rw [if_neg hcond]
    exact ⟨s2wf, s2nodes, s2cap, s2ne⟩

theorem hm_insert_spec (m : HMap) (n : HNode) (hwf : MapWF m) :
    MapWF (hm_insert m n) ∧
    (mapNodes (hm_insert m n)).Perm (n :: mapNodes m) ∧
    (capInv m → capInv (hm_insert m n)) := by
  obtain ⟨w3, p3, c3, _⟩ := insertStep3_spec m n hwf
  obtain ⟨wr, pr, _⟩ := hm_resizing_spec (insertStep3 m n) w3
  exact ⟨wr, pr.trans p3, fun hc => capInv_resizing w3 (c3 hc)⟩

theorem inv_hm_insert {m : HMap} {n : HNode} (hinv : Inv m)
    (hfresh : n.addr ∉ nodeAddrs m) : Inv (hm_insert m n) := by
  obtain ⟨hwf, hcap, hnd⟩ := hinv
  obtain ⟨w, p, c⟩ := hm_insert_spec m n hwf
  refine ⟨w, c hcap, ?_⟩
  have hp : (nodeAddrs (hm_insert m n)).Perm (n.addr :: nodeAddrs m) := by
    have hm := p.map fun x => x.addr
    simpa [nodeAddrs] using hm
  exact (hp.symm).nodup (List.nodup_cons.2 ⟨hfresh, hnd⟩)

theorem inv_hm_delete {m : HMap} {q : HNode} {cmp : HNode → HNode → Bool}
    (hinv : Inv m) : Inv (hm_delete m q cmp).2 := by
  obtain ⟨hwf, hcap, hnd⟩ := hinv
  obtain ⟨w, hmk, hm2, _, hnone, hsome⟩ := hm_delete_spec m q cmp hwf
  refine ⟨w, ?_, ?_⟩
  · intro h2ne
    obtain ⟨hmsk, hne⟩ := hm2 h2ne
    rw [hmsk, hmk]
    exact hcap hne
  · cases hres : (hm_delete m q cmp).1 with
    | none =>
      rw [hnone hres]
      have hperm := (hm_resizing_spec m hwf).2.1
      exact ((hperm.map fun x => x.addr).symm).nodup
        (by simpa [nodeAddrs] using hnd)
    | some a =>
      obtain ⟨_, hp⟩ := hsome a hres
      have hpa := hp.map fun x => x.addr
      have hnd2 : (nodeAddrs (hm_delete m q cmp).2).Nodup := by
        have : (a.addr :: nodeAddrs (hm_delete m q cmp).2).Nodup := by
          apply hpa.nodup
          · simpa [nodeAddrs] using hnd
        exact (List.nodup_cons.1 (by simpa [nodeAddrs] using this)).2
      exact hnd2

theorem inv_hm_lookup {m : HMap} {q : HNode} {cmp : HNode → HNode → Bool}
    (hinv : Inv m) : Inv (hm_lookup m q cmp).2 := by
  obtain ⟨hwf, hcap, hnd⟩ := hinv
  rw [hm_lookup_state]
  refine ⟨(hm_resizing_spec m hwf).1, capInv_resizing hwf hcap, ?_⟩
  have hperm := (hm_resizing_spec m hwf).2.1
  exact ((hperm.map fun x => x.addr).symm).nodup
    (by simpa [nodeAddrs] using hnd)

theorem runOps_cons (m : HMap) (op : Op) (rest : List Op) :
    runOps m (op :: rest) = runOps (applyOp m op) rest := rfl

theorem inv_runOps :
    ∀ (ops : List Op) (m : HMap), Inv m → validFrom m ops = true →
      Inv (runOps m ops)
  | [], m, h, _ => h
  | op :: rest, m, h, hv => by
    rw [runOps_cons]
    cases op with
    | ins n =>
      have hv' : decide (n.addr ∉ nodeAddrs m) = true ∧
          validFrom (applyOp m (Op.ins n)) rest = true := by
        simpa [validFrom, Bool.and_eq_true] using hv
      exact inv_runOps rest _ (inv_hm_insert h (of_decide_eq_true hv'.1)) hv'.2
    | rm q c =>
      have hv' : validFrom (applyOp m (Op.rm q c)) rest = true := by
        simpa [validFrom, Bool.and_eq_true] using hv
      exact inv_runOps rest _ (inv_hm_delete h) hv'
    | find q c =>
      have hv' : validFrom (applyOp m (Op.find q c)) rest = true := by
        simpa [validFrom, Bool.and_eq_true] using hv
      exact inv_runOps rest _ (inv_hm_lookup h) hv'

theorem sizes_eq_of_mapWF {m : HMap} (hwf : MapWF m) :
    m.h1.size + m.h2.size = (mapNodes m).length := by
  have e1 := hwf.1.2.2
  have e2 := hwf.2.1.2.2
  show m.h1.size + m.h2.size =
    (tableNodes m.h1 ++ tableNodes m.h2).length
  rw [List.length_append, ← e1, ← e2]

/-! ## Claim theorems for the hash map -/

/-- C6: an insert into a map with no rehash in progress that raises the
primary's size to at least `capacity × 8` triggers rehashing — the
primary becomes the secondary, a new primary of twice the capacity is
allocated, and the cursor is reset to 0.  Consequently, in every state
reachable by valid public-operation sequences from an `Inv` state
(`HMap.empty` is one), a rehash in progress has
`secondary capacity × 2 = primary capacity`. -/
theorem C6_insert_triggers_rehash_and_capacity_halves :
    (∀ m : HMap, (hm_trigger_rehashing m).h2 = m.h1 ∧
      (hm_trigger_rehashing m).h1.mask + 1 = (m.h1.mask + 1) * 2 ∧
      (hm_trigger_rehashing m).h1.table.length = (m.h1.mask + 1) * 2 ∧
      (hm_trigger_rehashing m).h1.size = 0 ∧
      (hm_trigger_rehashing m).resizing_pos = 0) ∧
    (∀ (m : HMap) (n : HNode), m.h1.table ≠ [] → m.h2.table = [] →
      (m.h1.mask + 1) * k_max_load_factor ≤ m.h1.size + 1 →
      hm_insert m n = hm_resizing (hm_trigger_rehashing
        ⟨h_insert m.h1 n, m.h2, m.resizing_pos⟩)) ∧
    (∀ (m₀ : HMap) (ops : List Op), Inv m₀ → validFrom m₀ ops = true →
      (runOps m₀ ops).h2.table ≠ [] →
      ((runOps m₀ ops).h2.mask + 1) * 2 = (runOps m₀ ops).h1.mask + 1) ∧
    Inv HMap.empty := by
  refine ⟨?_, ?_, ?_, ?_⟩
  · intro m
    refine ⟨rfl, ?_, ?_, rfl, rfl⟩
    · show (m.h1.mask + 1) * 2 - 1 + 1 = (m.h1.mask + 1) * 2
      omega
    · show (List.replicate ((m.h1.mask + 1) * 2) ([] : List HNode)).length =
        (m.h1.mask + 1) * 2
      simp
  · intro m n h1ne h2nil hload
    have e1 : insertStep1 m = m := by
      unfold insertStep1
      rw [if_neg (by simp [h1ne])]
    have e2 : insertStep2 m n = ⟨h_insert m.h1 n, m.h2, m.resizing_pos⟩ := by
      unfold insertStep2
      rw [e1]
    have e3 : insertStep3 m n =
        hm_trigger_rehashing ⟨h_insert m.h1 n, m.h2, m.resizing_pos⟩ := by
      unfold insertStep3
      rw [e2]
      rw [if_pos ⟨by simp [h2nil], hload⟩]
    show hm_resizing (insertStep3 m n) = _
    rw [e3]
  · intro m₀ ops hinv hv h2ne
    exact (inv_runOps ops m₀ hinv hv).2.1 h2ne
  · refine ⟨⟨tableWF_empty, tableWF_empty, fun h => h, ?_⟩, ?_, ?_⟩
    · intro i hi
      simp [HMap.empty, HashTable.empty] at hi
    · intro h
      exact absurd rfl h
    · exact List.nodup_nil

/-- Witness for C6: a 31-entry primary of capacity 4 satisfies the
trigger path of `hm_insert`, and the mid-rehash state `midRehash`
(reachable hypotheses hold by evaluation) satisfies the capacity
relation. -/
theorem C6_witness :
    (hm_insert (⟨⟨List.replicate 4 [], 3, 31⟩, HashTable.empty, 0⟩ : HMap)
        ⟨0, [], [], 0⟩ =
      hm_resizing (hm_trigger_rehashing
        ⟨h_insert (⟨List.replicate 4 [], 3, 31⟩ : HashTable) ⟨0, [], [], 0⟩,
          HashTable.empty, 0⟩)) ∧
    ((runOps midRehash []).h2.mask + 1) * 2 = (runOps midRehash []).h1.mask + 1 := by
  constructor
  · exact C6_insert_triggers_rehash_and_capacity_halves.2.1
      (⟨⟨List.replicate 4 [], 3, 31⟩, HashTable.empty, 0⟩ : HMap)
      ⟨0, [], [], 0⟩ (by decide) (by decide) (by decide)
  · exact C6_insert_triggers_rehash_and_capacity_halves.2.2.1 midRehash []
      (by decide) (by decide) (by decide)

/-- C7 counterexample: on a map whose secondary holds one node in
bucket 1, the rehash step releases the secondary (its size reaches 0)
but leaves the cursor at 1 — the claim's "the rehash cursor is reset
to 0" is false at this input. -/
theorem C7_counterexample :
    (hm_resizing skipThenDrain).h2.table = [] ∧
    (hm_resizing skipThenDrain).h2.size = 0 ∧
    (hm_resizing skipThenDrain).resizing_pos ≠ 0 := by
  decide

/-- C7 (amended): one rehash step moves at most `k_resizing_work = 128`
nodes from the secondary to the primary (empty-bucket skips do not
count), preserving the stored nodes as a multiset; as soon as
`secondary.size` reaches 0 the secondary's storage is released and the
secondary becomes absent; the cursor is NOT reset then — it only
advances, and is reset to 0 only by the next `hm_trigger_rehashing`. -/
theorem C7_rehash_step_amended (m : HMap) (hwf : MapWF m) :
    m.h2.size ≤ (hm_resizing m).h2.size + k_resizing_work ∧
    (hm_resizing m).h2.size ≤ m.h2.size ∧
    (mapNodes (hm_resizing m)).Perm (mapNodes m) ∧
    (hm_resizing m).h1.size + (hm_resizing m).h2.size =
      m.h1.size + m.h2.size ∧
    ((hm_resizing m).h2.size = 0 → m.h2.table ≠ [] →
      (hm_resizing m).h2 = HashTable.empty) ∧
    m.resizing_pos ≤ (hm_resizing m).resizing_pos ∧
    (∀ m' : HMap, (hm_trigger_rehashing m').resizing_pos = 0) := by
  obtain ⟨_, hperm, _, _, _, _, hs1, hs2, hpos, hsum⟩ := hm_resizing_spec m hwf
  refine ⟨hs2, hs1, hperm, hsum, ?_, hpos, fun _ => rfl⟩
  intro hz hne
  rw [hm_resizing_eq_loop hne] at hz ⊢
  by_cases h0 : (hm_resizing_loop m.h1 m.h2 m.resizing_pos 0
      (k_resizing_work + m.h2.table.length)).2.1.size = 0
  · rw [if_pos h0]
  · rw [if_neg h0] at hz
    exact absurd hz h0

/-- Witness for C7 (amended) at the concrete mid-rehash state. -/
theorem C7_witness :
    midRehash.h2.size ≤ (hm_resizing midRehash).h2.size + k_resizing_work ∧
    ((hm_resizing midRehash).h2.size = 0 →
      midRehash.h2.table ≠ [] →
      (hm_resizing midRehash).h2 = HashTable.empty) := by
  have h := C7_rehash_step_amended midRehash (by decide)
  exact ⟨h.1, h.2.2.2.2.1⟩

/-- C8: starting from any state satisfying the master invariant
(`HMap.empty` is one), after any valid sequence of public operations the
stored key set is the disjoint union of the two tables:
`h1.size + h2.size` equals the number of live entries, and no entry
(address) appears in two chains. -/
theorem C8_sizes_disjoint_union :
    Inv HMap.empty ∧
    ∀ (m₀ : HMap) (ops : List Op), Inv m₀ → validFrom m₀ ops = true →
      (runOps m₀ ops).h1.size + (runOps m₀ ops).h2.size =
        (mapNodes (runOps m₀ ops)).length ∧
      (nodeAddrs (runOps m₀ ops)).Nodup := by
  constructor
  · exact C6_insert_triggers_rehash_and_capacity_halves.2.2.2
  · intro m₀ ops hinv hv
    obtain ⟨hwf, _, hnd⟩ := inv_runOps ops m₀ hinv hv
    exact ⟨sizes_eq_of_mapWF hwf, hnd⟩

/-- Witness for C8: one insert into the empty map. -/
theorem C8_witness :
    (runOps HMap.empty [Op.ins ⟨5, [], [], 1⟩]).h1.size +
        (runOps HMap.empty [Op.ins ⟨5, [], [], 1⟩]).h2.size =
      (mapNodes (runOps HMap.empty [Op.ins ⟨5, [], [], 1⟩])).length ∧
    (nodeAddrs (runOps HMap.empty [Op.ins ⟨5, [], [], 1⟩])).Nodup :=
  C8_sizes_disjoint_union.2 HMap.empty [Op.ins ⟨5, [], [], 1⟩]
    (by decide) (by decide)

/-- C10: `hm_lookup` is not read-only — its resulting state is exactly
`hm_resizing m`, which may move up to 128 nodes from the secondary to
the primary and release the secondary; yet the stored nodes are
preserved as a multiset, and the returned node is a comparator match
from the pre-call node set (`none` only when no stored node matches). -/
theorem C10_lookup_rehashes_but_preserves_keyset (m : HMap) (q : HNode)
    (cmp : HNode → HNode → Bool) (hwf : MapWF m)
    (hcompat : ∀ n ∈ mapNodes m, cmp n q = true → n.hashcode = q.hashcode) :
    (hm_lookup m q cmp).2 = hm_resizing m ∧
    (mapNodes (hm_lookup m q cmp).2).Perm (mapNodes m) ∧
    m.h2.size ≤ (hm_lookup m q cmp).2.h2.size + k_resizing_work ∧
    (∀ n, (hm_lookup m q cmp).1 = some n →
      cmp n q = true ∧ n ∈ mapNodes m) ∧
    ((hm_lookup m q cmp).1 = none → ∀ n ∈ mapNodes m, cmp n q = false) := by
  obtain ⟨hsome, hnone⟩ := hm_lookup_spec m q cmp hwf
  obtain ⟨_, hperm, _, _, _, _, _, hs2, _, _⟩ := hm_resizing_spec m hwf
  refine ⟨hm_lookup_state m q cmp, ?_, ?_, hsome, hnone hcompat⟩
  · rw [hm_lookup_state]
    exact hperm
  · rw [hm_lookup_state]
    exact hs2

/-- Witness for C10 at the concrete mid-rehash state, probing for the
stored key. -/
theorem C10_witness :
    (hm_lookup midRehash ⟨2166136261, [], [], 7⟩ cmpKeys).2 =
      hm_resizing midRehash ∧
    midRehash.h2.size ≤
      (hm_lookup midRehash ⟨2166136261, [], [], 7⟩ cmpKeys).2.h2.size +
        k_resizing_work := by
  have h := C10_lookup_rehashes_but_preserves_keyset midRehash
    ⟨2166136261, [], [], 7⟩ cmpKeys (by decide) (by decide)
  exact ⟨h.1, h.2.2.1⟩

/-! ## Parser round-trip lemmas -/

theorem getD_append_right {α : Type} :
    ∀ (l1 l2 : List α) (d : α) (j : Nat),
      (l1 ++ l2).getD (l1.length + j) d = l2.getD j d
  | [], l2, d, j => by simp
  | a :: t, l2, d, j => by
    show (a :: (t ++ l2)).getD (t.length + 1 + j) d = l2.getD j d
    rw [show t.length + 1 + j = (t.length + j) + 1 by omega, List.getD_cons_succ]
    exact getD_append_right t l2 d j

theorem readU32_at (pre : List Nat) (w : Nat) (rest : List Nat)
    (hw : w < 4294967296) :
    readU32 (pre ++ (u32be w ++ rest)) pre.length = w := by
  have h0 := getD_append_right pre (u32be w ++ rest) 0 0
  have h1 := getD_append_right pre (u32be w ++ rest) 0 1
  have h2 := getD_append_right pre (u32be w ++ rest) 0 2
  have h3 := getD_append_right pre (u32be w ++ rest) 0 3
  rw [Nat.add_zero] at h0
  unfold readU32
  rw [h0, h1, h2, h3]
  show w / 16777216 % 256 * 16777216 + w / 65536 % 256 * 65536 +
    w / 256 % 256 * 256 + w % 256 = w
  omega

theorem range_map_getD {α : Type} :
    ∀ (l : List α) (d : α) (f : Nat → α),
      (∀ j, j < l.length → f j = l.getD j d) →
      (List.range l.length).map f = l
  | [], _, _, _ => rfl
  | a :: t, d, f, hf => by
    rw [List.length_cons, List.range_succ_eq_map, List.map_cons, List.map_map]
    rw [hf 0 (by simp)]
    simp only [List.getD_cons_zero]
    congr 1
    exact range_map_getD t d (fun j => f (j + 1))
      (fun j hj => by
        rw [show (fun j => f (j + 1)) j = f (j + 1) from rfl,
          hf (j + 1) (by simpa using hj)]
        simp)

theorem getD_append_left {α : Type} :
    ∀ (l1 l2 : List α) (d : α) (j : Nat), j < l1.length →
      (l1 ++ l2).getD j d = l1.getD j d
  | [], _, _, j, h => by simp at h
  | _ :: _, _, _, 0, _ => rfl
  | a :: t, l2, d, j + 1, h => by
    rw [List.cons_append, List.getD_cons_succ, List.getD_cons_succ]
    exact getD_append_left t l2 d j (by simpa using h)

theorem extract_bytes (pre a rest : List Nat) :
    (List.range a.length).map
      (fun j => (pre ++ (a ++ rest)).getD (pre.length + j) 0) = a := by
  apply range_map_getD
  intro j hj
  rw [getD_append_right, getD_append_left a rest 0 j hj]

theorem u32be_length (w : Nat) : (u32be w).length = 4 := rfl

theorem encodeArgs_cons (a : List Nat) (l : List (List Nat)) :
    encodeArgs (a :: l) = (u32be a.length ++ a) ++ encodeArgs l := rfl

theorem encodeArgs_length_cons (a : List Nat) (l : List (List Nat)) :
    (encodeArgs (a :: l)).length = 4 + a.length + (encodeArgs l).length := by
  rw [encodeArgs_cons]
  simp [u32be_length]
  omega

theorem sumArgs_cons (a : List Nat) (l : List (List Nat)) :
    sumArgs (a :: l) = 4 + a.length + sumArgs l := by
  simp [sumArgs]

theorem parseArgsLoop_succ (buf : List Nat) (size i cur con rBSF : Nat)
    (acc : List (List Nat)) :
    parseArgsLoop buf size (i + 1) cur con rBSF acc =
      if size < cur + 4 then ParseResult.needMore
      else
        if MAX_MSG_SIZE <
            (rBSF + 4 + int32AsSizeT (readU32 buf cur)) % 18446744073709551616 then
          ParseResult.fatal (frameBytes (ascii "oversized request\n"))
        else if (size : Int) - (cur + 4) < asInt32 (readU32 buf cur) then
          ParseResult.needMore
        else if asInt32 (readU32 buf cur) < 0 then ParseResult.crash
        else
          parseArgsLoop buf size i (cur + 4 + readU32 buf cur)
            (con + 4 + readU32 buf cur) (rBSF + 4 + readU32 buf cur)
            (acc ++ [(List.range (readU32 buf cur)).map
              fun j => buf.getD (cur + 4 + j) 0]) := rfl

theorem parseArgsLoop_complete :
    ∀ (args : List (List Nat)) (pre rest : List Nat) (size con rBSF : Nat)
      (acc : List (List Nat)),
      rBSF + sumArgs args ≤ MAX_MSG_SIZE →
      pre.length + (encodeArgs args).length ≤ size →
      parseArgsLoop (pre ++ (encodeArgs args ++ rest)) size args.length
        pre.length con rBSF acc =
        ParseResult.ok (con + sumArgs args) (acc ++ args)
  | [], pre, rest, size, con, rBSF, acc, _, _ => by
    show ParseResult.ok con acc = _
    rw [show sumArgs [] = 0 from rfl, Nat.add_zero, List.append_nil]
  | a :: args', pre, rest, size, con, rBSF, acc, hcap, hsize => by
    have hsc := sumArgs_cons a args'
    have hMAX : MAX_MSG_SIZE = 1024 := rfl
    have ha31 : a.length < 2147483648 := by
      rw [hMAX] at hcap
      omega
    have hbuf : pre ++ (encodeArgs (a :: args') ++ rest) =
        pre ++ (u32be a.length ++ (a ++ (encodeArgs args' ++ rest))) := by
      rw [encodeArgs_cons]
      simp [List.append_assoc]
    have hel := encodeArgs_length_cons a args'
    rw [show (a :: args').length = args'.length + 1 from rfl, hbuf,
      parseArgsLoop_succ]
    have hread : readU32 (pre ++ (u32be a.length ++ (a ++ (encodeArgs args' ++ rest))))
        pre.length = a.length :=
      readU32_at pre a.length (a ++ (encodeArgs args' ++ rest)) (by omega)
    rw [if_neg (by omega), hread,
      show int32AsSizeT a.length = a.length from by
        unfold int32AsSizeT
        rw [if_pos ha31],
      show asInt32 a.length = (a.length : Int) from by
        unfold asInt32
        rw [if_pos ha31]]
    rw [if_neg (by
      rw [Nat.mod_eq_of_lt (by omega)]
      omega)]
    rw [if_neg (by
      have : pre.length + (4 + a.length) ≤ size := by omega
      omega)]
    rw [if_neg (by omega)]
    have hval : (List.range a.length).map
        (fun j => (pre ++ (u32be a.length ++ (a ++ (encodeArgs args' ++ rest)))).getD
          (pre.length + 4 + j) 0) = a := by
      have he := extract_bytes (pre ++ u32be a.length) a (encodeArgs args' ++ rest)
      rw [show (pre ++ u32be a.length) ++ (a ++ (encodeArgs args' ++ rest)) =
        pre ++ (u32be a.length ++ (a ++ (encodeArgs args' ++ rest))) from by
          simp [List.append_assoc]] at he
      rw [show (pre ++ u32be a.length).length = pre.length + 4 from by
        simp [u32be_length]] at he
      exact he
    rw [hval]
    have ih := parseArgsLoop_complete args' (pre ++ u32be a.length ++ a) rest
      size (con + 4 + a.length) (rBSF + 4 + a.length) (acc ++ [a])
      (by omega) (by simp [u32be_length]; omega)
    rw [show (pre ++ u32be a.length ++ a) ++ (encodeArgs args' ++ rest) =
      pre ++ (u32be a.length ++ (a ++ (encodeArgs args' ++ rest))) from by
        simp [List.append_assoc]] at ih
    rw [show (pre ++ u32be a.length ++ a).length = pre.length + 4 + a.length from by
      simp [u32be_length]
      omega] at ih
    rw [ih, hsc]
    rw [show con + 4 + a.length + sumArgs args' = con + (4 + a.length + sumArgs args')
      from by omega]
    rw [show (acc ++ [a]) ++ args' = acc ++ (a :: args') from by simp]

theorem encodeArgs_length :
    ∀ (l : List (List Nat)), (encodeArgs l).length = sumArgs l
  | [] => rfl
  | a :: l => by
    rw [encodeArgs_length_cons, sumArgs_cons, encodeArgs_length l]

theorem try_parse_eq (buf : List Nat) (size start : Nat) :
    try_parse buf size start =
      if size < 4 then ParseResult.needMore
      else if asInt32 (readU32 buf start) < 2 ∨ 3 < asInt32 (readU32 buf start) then
        ParseResult.fatal (frameBytes (ascii "invalid command\n"))
      else parseArgsLoop buf size (readU32 buf start) (start + 4) 4 4 [] := rfl

/-! ## Claim theorems for the parser and the connection buffers -/

/-- C4 counterexample: the complete request `get x`, fully present at
offset 0, is consumed in 16 bytes — not the `4 + 4 + Σ(4 + |aᵢ|) = 20`
bytes the claim states, because the phase5 request format has no outer
frame-length word. -/
theorem C4_counterexample :
    try_parse (encodeReq [ascii "get", ascii "x"]) 16 0 =
      ParseResult.ok 16 [ascii "get", ascii "x"] ∧
    (16 : Nat) ≠ 4 + 4 + ((4 + 3) + (4 + 1)) := by
  decide

/-- C4 (amended): for every well-formed request with `n ∈ {2,3}`
arguments fully present in the receive buffer at the parse offset, the
parser returns consumed(k) with the decoded arguments exactly as sent
and `k = 4 + Σ(4 + |aᵢ|)` — the count word plus a length word and the
payload per argument; this `k` is exactly the encoding's length. -/
theorem C4_framing_roundtrip_amended (args : List (List Nat))
    (pre rest : List Nat) (size : Nat)
    (hn : args.length = 2 ∨ args.length = 3)
    (hcap : 4 + sumArgs args ≤ MAX_MSG_SIZE)
    (hsize : pre.length + (encodeReq args).length ≤ size) :
    try_parse (pre ++ (encodeReq args ++ rest)) size pre.length =
      ParseResult.ok (4 + sumArgs args) args ∧
    (encodeReq args).length = 4 + sumArgs args := by
  have hlen : (encodeReq args).length = 4 + sumArgs args := by
    show (u32be args.length ++ encodeArgs args).length = 4 + sumArgs args
    rw [List.length_append, u32be_length, encodeArgs_length]
  refine ⟨?_, hlen⟩
  have hbuf : pre ++ (encodeReq args ++ rest) =
      pre ++ (u32be args.length ++ (encodeArgs args ++ rest)) := by
    show pre ++ ((u32be args.length ++ encodeArgs args) ++ rest) = _
    simp [List.append_assoc]
  rw [hbuf, try_parse_eq]
  have hread : readU32 (pre ++ (u32be args.length ++ (encodeArgs args ++ rest)))
      pre.length = args.length :=
    readU32_at pre args.length (encodeArgs args ++ rest) (by omega)
  rw [if_neg (by omega), hread]
  have hn32 : asInt32 args.length = (args.length : Int) := by
    unfold asInt32
    rw [if_pos (by omega)]
  rw [hn32, if_neg (by omega)]
  have hc := parseArgsLoop_complete args (pre ++ u32be args.length) rest size
    4 4 [] (by omega) (by
      rw [List.length_append, u32be_length, encodeArgs_length]
      rw [hlen] at hsize
      omega)
  rw [show (pre ++ u32be args.length) ++ (encodeArgs args ++ rest) =
    pre ++ (u32be args.length ++ (encodeArgs args ++ rest)) from by
      simp [List.append_assoc]] at hc
  rw [show (pre ++ u32be args.length).length = pre.length + 4 from by
    simp [u32be_length]] at hc
  rw [hc]
  rw [show ([] : List (List Nat)) ++ args = args from by simp]

/-- Witness for C4 (amended): the concrete request `get x`. -/
theorem C4_witness :
    try_parse ([] ++ (encodeReq [ascii "get", ascii "x"] ++ [])) 16
        (List.length ([] : List Nat)) =
      ParseResult.ok (4 + sumArgs [ascii "get", ascii "x"])
        [ascii "get", ascii "x"] ∧
    (encodeReq [ascii "get", ascii "x"]).length =
      4 + sumArgs [ascii "get", ascii "x"] :=
  C4_framing_roundtrip_amended [ascii "get", ascii "x"] [] [] 16
    (by decide) (by decide) (by decide)

/-- C3: the first need-more check of `try_one_request` compares the
TOTAL buffer size, not the bytes remaining at the parse offset, against
4.  With a complete 16-byte `get x` request followed by only 2 bytes of
the next request's count word (size 18, offset 16), the parser reads the
two present bytes plus two zero-initialized bytes as the count word,
decodes `n_args = 0` and returns fatal — instead of the claimed
need-more — and the read drain then destroys the connection. -/
theorem C3_need_more_check_uses_total_size :
    try_parse c3buf 18 16 =
      ParseResult.fatal (frameBytes (ascii "invalid command\n")) ∧
    outcomeIsKeep (handle_read_chunk DB.init Connection.init c3buf) = false := by
  decide

/-- C5: a request whose cumulative size exceeds `MAX_MSG_SIZE` does not
always end in the claimed fatal-frame-then-destroy path: with the
argument-length word `0xFFFFFFF8` (`-8` as `int32_t`) the `size_t`
overflow check wraps to 0, the signed remaining-data check passes, and
`std::string val(start, length)` throws an uncaught
`std::length_error`, aborting the whole server process. -/
theorem C5_huge_length_word_aborts_process :
    MAX_MSG_SIZE < 4 + 4 + 4294967288 ∧
    try_parse c5buf 8 0 = ParseResult.crash ∧
    handle_read_chunk DB.init Connection.init c5buf = ReadOutcome.abort := by
  decide

set_option maxRecDepth 80000

/-- C2: the dispatcher appends response frames with no capacity check,
so one pipelined read drain pushes `write_buffer_size` past the send
buffer's capacity `4 + MAX_MSG_SIZE = 1028`: after `set x <1000 bytes>`,
a single read delivering two `get x` requests (which fit the receive
buffer) leaves the connection open with `write_buffer_size = 2026`. -/
theorem C2_write_buffer_counter_exceeds_capacity :
    c2chunk.length ≤ 4 + MAX_MSG_SIZE ∧
    outcomeIsKeep (handle_read_chunk c2db Connection.init c2chunk) = true ∧
    outcomeWbs (handle_read_chunk c2db Connection.init c2chunk) = 2026 ∧
    4 + MAX_MSG_SIZE <
      outcomeWbs (handle_read_chunk c2db Connection.init c2chunk) := by
  decide

/-! ## Server dispatcher lemmas -/

theorem do_set_eq (db : DB) (keyArg valArg : List Nat) :
    do_set db keyArg valArg =
      match (hm_lookup_slot db.hmap (probeFor (cstr keyArg)) cmpKeys).1 with
      | some s =>
        (⟨ResponseStatus.SUCCESS, ascii "set " ++ cstr keyArg ++ ascii " to " ++
            cstr valArg ++ ascii "\n"⟩,
          ⟨slotSetValue
              (hm_lookup_slot db.hmap (probeFor (cstr keyArg)) cmpKeys).2
              (str_hash (cstr keyArg)) s (cstr valArg), db.nextAddr⟩)
      | none =>
        (⟨ResponseStatus.SUCCESS, ascii "set " ++ cstr keyArg ++ ascii " to " ++
            cstr valArg ++ ascii "\n"⟩,
          ⟨hm_insert
              (hm_lookup_slot db.hmap (probeFor (cstr keyArg)) cmpKeys).2
              ⟨str_hash (cstr keyArg), cstr keyArg, cstr valArg, db.nextAddr⟩,
            db.nextAddr + 1⟩) := rfl

theorem SWF_of_perm {m m' : HMap} (hswf : SWF m) (hwf' : MapWF m')
    (hcap' : capInv m') (hp : (mapNodes m').Perm (mapNodes m)) : SWF m' := by
  refine ⟨hwf', hcap', ?_, ?_⟩
  · intro n hn
    exact hswf.2.2.1 n (hp.mem_iff.1 hn)
  · exact ((hp.map fun n => n.key).symm).nodup hswf.2.2.2

theorem SWF_resizing {m : HMap} (hswf : SWF m) : SWF (hm_resizing m) := by
  obtain ⟨hwf', hp, _⟩ := hm_resizing_spec m hswf.1
  exact SWF_of_perm hswf hwf' (capInv_resizing hswf.1 hswf.2.1) hp

theorem cmpKeys_eq_true {n q : HNode} : cmpKeys n q = true ↔ n.key = q.key := by
  simp [cmpKeys]

theorem server_compat {m : HMap} (hswf : SWF m) (k : List Nat) :
    ∀ n ∈ mapNodes m, cmpKeys n (probeFor k) = true →
      n.hashcode = (probeFor k).hashcode := by
  intro n hn hc
  have hk : n.key = k := cmpKeys_eq_true.1 hc
  rw [hswf.2.2.1 n hn, hk]
  rfl

theorem unique_key {m : HMap} (hswf : SWF m) {n n' : HNode}
    (hn : n ∈ mapNodes m) (hn' : n' ∈ mapNodes m) (hk : n.key = n'.key) :
    n = n' :=
  List.inj_on_of_nodup_map hswf.2.2.2 hn hn' hk

theorem server_lookup_spec (m : HMap) (k : List Nat) (hswf : SWF m) :
    (∀ n, (hm_lookup m (probeFor k) cmpKeys).1 = some n →
      n ∈ mapNodes m ∧ n.key = k) ∧
    ((hm_lookup m (probeFor k) cmpKeys).1 = none →
      ∀ n ∈ mapNodes m, n.key ≠ k) := by
  obtain ⟨hsome, hnone⟩ := hm_lookup_spec m (probeFor k) cmpKeys hswf.1
  constructor
  · intro n hn
    obtain ⟨hc, hmem⟩ := hsome n hn
    exact ⟨hmem, cmpKeys_eq_true.1 hc⟩
  · intro h0 n hn hk
    have hfalse := hnone (server_compat hswf k) h0 n hn
    have htrue : cmpKeys n (probeFor k) = true := cmpKeys_eq_true.2 hk
    rw [htrue] at hfalse
    cases hfalse

theorem absRel_of_perm {m m' : HMap} {σ : List Nat → Option (List Nat)}
    (h : absRel m σ) (hp : (mapNodes m').Perm (mapNodes m)) : absRel m' σ := by
  intro k v
  rw [h k v]
  constructor
  · rintro ⟨n, hn, hk, hv⟩
    exact ⟨n, hp.mem_iff.2 hn, hk, hv⟩
  · rintro ⟨n, hn, hk, hv⟩
    exact ⟨n, hp.mem_iff.1 hn, hk, hv⟩

theorem cstr_eq_self {k : List Nat} (hk : ∀ b ∈ k, b ≠ 0) : cstr k = k := by
  induction k with
  | nil => rfl
  | cons b t ih =>
    unfold cstr
    rw [List.takeWhile_cons]
    rw [if_pos (by simpa using hk b (List.mem_cons_self b t))]
    have := ih fun x hx => hk x (List.mem_cons_of_mem b hx)
    unfold cstr at this
    rw [this]

theorem mapNodes_empty : mapNodes HMap.empty = [] := rfl

theorem SWF_empty : SWF HMap.empty := by
  refine ⟨⟨tableWF_empty, tableWF_empty, fun h => h, ?_⟩, ?_, ?_, ?_⟩
  · intro i hi
    exact absurd hi (Nat.not_lt_zero i)
  · intro h
    exact absurd rfl h
  · intro n hn
    rw [mapNodes_empty] at hn
    cases hn
  · rw [mapNodes_empty]
    exact List.nodup_nil

theorem set_ne_nil {α : Type} (l : List α) (i : Nat) (x : α) :
    l.set i x ≠ [] ↔ l ≠ [] := by
  cases l with
  | nil => simp
  | cons a t => cases i <;> simp

theorem set_bucket_spec (t : HashTable) (b i : Nat) (n n' : HNode)
    (hwf : TableWF t) (hgot : (t.table.getD b [])[i]? = some n)
    (hhash : n'.hashcode = n.hashcode) :
    ∃ X, (tableNodes t).Perm (n :: X) ∧
      (tableNodes ⟨t.table.set b ((t.table.getD b []).set i n'),
        t.mask, t.size⟩).Perm (n' :: X) ∧
      TableWF ⟨t.table.set b ((t.table.getD b []).set i n'), t.mask, t.size⟩ := by
  have hbne : t.table.getD b [] ≠ [] := by
    intro he
    rw [he] at hgot
    simp at hgot
  have hb : b < t.table.length := by
    by_contra hle
    exact hbne (getD_oob _ _ (Nat.le_of_not_lt hle))
  have hi : i < (t.table.getD b []).length := by
    by_contra hle
    rw [List.getElem?_eq_none (Nat.le_of_not_lt hle)] at hgot
    cases hgot
  have hnmem : n ∈ t.table.getD b [] :=
    (cons_eraseIdx_perm _ i n hgot).mem_iff.2 (List.mem_cons_self n _)
  have hnpl : n.hashcode &&& t.mask = b := hwf.2.1 b hb n hnmem
  refine ⟨tableNodes (h_detach t b i), h_detach_perm t b i n hgot, ?_, ?_⟩
  · have hgot' : (((t.table.set b ((t.table.getD b []).set i n')).getD b
        [])[i]?) = some n' := by
      rw [getD_set_self _ _ _ hb]
      exact List.getElem?_set_eq_of_lt _ hi
    have hB := h_detach_perm
      ⟨t.table.set b ((t.table.getD b []).set i n'), t.mask, t.size⟩ b i n' hgot'
    have heq : tableNodes (h_detach
        ⟨t.table.set b ((t.table.getD b []).set i n'), t.mask, t.size⟩ b i) =
        tableNodes (h_detach t b i) := by
      show ((t.table.set b ((t.table.getD b []).set i n')).set b
          (((t.table.set b ((t.table.getD b []).set i n')).getD b
            []).eraseIdx i)).flatten =
        (t.table.set b ((t.table.getD b []).eraseIdx i)).flatten
      rw [getD_set_self _ _ _ hb, eraseIdx_set_self, List.set_set]
    rw [heq] at hB
    exact hB
  · have hA := h_detach_perm t b i n hgot
    have hgot' : (((t.table.set b ((t.table.getD b []).set i n')).getD b
        [])[i]?) = some n' := by
      rw [getD_set_self _ _ _ hb]
      exact List.getElem?_set_eq_of_lt _ hi
    have hB := h_detach_perm
      ⟨t.table.set b ((t.table.getD b []).set i n'), t.mask, t.size⟩ b i n' hgot'
    have heq : tableNodes (h_detach
        ⟨t.table.set b ((t.table.getD b []).set i n'), t.mask, t.size⟩ b i) =
        tableNodes (h_detach t b i) := by
      show ((t.table.set b ((t.table.getD b []).set i n')).set b
          (((t.table.set b ((t.table.getD b []).set i n')).getD b
            []).eraseIdx i)).flatten =
        (t.table.set b ((t.table.getD b []).eraseIdx i)).flatten
      rw [getD_set_self _ _ _ hb, eraseIdx_set_self, List.set_set]
    rw [heq] at hB
    refine ⟨?_, ?_, ?_⟩
    · rcases hwf.1 with h0 | h0
      · rw [h0] at hb
        cases hb
      · exact Or.inr (by simpa using h0)
    · intro j hj x hx
      have hj' : j < t.table.length := by simpa using hj
      show x.hashcode &&& t.mask = j
      by_cases hbj : b = j
      · subst hbj
        rw [show (⟨t.table.set b ((t.table.getD b []).set i n'),
            t.mask, t.size⟩ : HashTable).table =
            t.table.set b ((t.table.getD b []).set i n') from rfl,
          getD_set_self _ _ _ hb] at hx
        rcases List.mem_or_eq_of_mem_set hx with hold | rfl
        · exact hwf.2.1 b hj' x hold
        · rw [hhash]
          exact hnpl
      · rw [show (⟨t.table.set b ((t.table.getD b []).set i n'),
            t.mask, t.size⟩ : HashTable).table =
            t.table.set b ((t.table.getD b []).set i n') from rfl,
          getD_set_ne _ _ _ hbj] at hx
        exact hwf.2.1 j hj' x hx
    · have hlA := hA.length_eq
      have hlB := hB.length_eq
      simp only [List.length_cons] at hlA hlB
      have hsz := hwf.2.2
      show t.size = _
      omega

theorem slotSetValue_spec (m : HMap) (hc : Nat) (s : Slot) (v : List Nat)
    (hwf : MapWF m) {n : HNode} (hs : slotGet m hc s = some n) :
    ∃ X, (mapNodes m).Perm (n :: X) ∧
      (mapNodes (slotSetValue m hc s v)).Perm
        (⟨n.hashcode, n.key, v, n.addr⟩ :: X) ∧
      MapWF (slotSetValue m hc s v) ∧
      (slotSetValue m hc s v).h1.mask = m.h1.mask ∧
      (slotSetValue m hc s v).h2.mask = m.h2.mask ∧
      ((slotSetValue m hc s v).h2.table ≠ [] ↔ m.h2.table ≠ []) := by
  cases s with
  | s1 i =>
    have hs' : (bucketAt m.h1 hc)[i]? = some n := hs
    have hred : slotSetValue m hc (Slot.s1 i) v =
        ⟨⟨m.h1.table.set (hc &&& m.h1.mask)
            ((bucketAt m.h1 hc).set i ⟨n.hashcode, n.key, v, n.addr⟩),
          m.h1.mask, m.h1.size⟩, m.h2, m.resizing_pos⟩ := by
      simp only [slotSetValue, hs']
    obtain ⟨X, hA, hB, hwf'⟩ := set_bucket_spec m.h1 (hc &&& m.h1.mask) i n
      ⟨n.hashcode, n.key, v, n.addr⟩ hwf.1 hs' rfl
    refine ⟨X ++ tableNodes m.h2, ?_, ?_, ?_, ?_, ?_, ?_⟩
    · have := hA.append_right (tableNodes m.h2)
      rw [List.cons_append] at this
      exact this
    · rw [hred]
      have := hB.append_right (tableNodes m.h2)
      rw [List.cons_append] at this
      exact this
    · rw [hred]
      refine ⟨hwf', hwf.2.1, ?_, hwf.2.2.2⟩
      intro h2ne
      show m.h1.table.set (hc &&& m.h1.mask) _ ≠ []
      rw [set_ne_nil]
      exact hwf.2.2.1 h2ne
    · rw [hred]
    · rw [hred]
    · rw [hred]
  | s2 i =>
    have hs' : (bucketAt m.h2 hc)[i]? = some n := hs
    have hred : slotSetValue m hc (Slot.s2 i) v =
        ⟨m.h1, ⟨m.h2.table.set (hc &&& m.h2.mask)
            ((bucketAt m.h2 hc).set i ⟨n.hashcode, n.key, v, n.addr⟩),
          m.h2.mask, m.h2.size⟩, m.resizing_pos⟩ := by
      simp only [slotSetValue, hs']
    obtain ⟨X, hA, hB, hwf'⟩ := set_bucket_spec m.h2 (hc &&& m.h2.mask) i n
      ⟨n.hashcode, n.key, v, n.addr⟩ hwf.2.1 hs' rfl
    have hbne : m.h2.table.getD (hc &&& m.h2.mask) [] ≠ [] := by
      intro he
      have : (bucketAt m.h2 hc)[i]? = none := by
        rw [show bucketAt m.h2 hc = m.h2.table.getD (hc &&& m.h2.mask) []
          from rfl, he]
        rfl
      rw [hs'] at this
      cases this
    refine ⟨tableNodes m.h1 ++ X, ?_, ?_, ?_, ?_, ?_, ?_⟩
    · exact (hA.append_left (tableNodes m.h1)).trans List.perm_middle
    · rw [hred]
      exact (hB.append_left (tableNodes m.h1)).trans List.perm_middle
    · rw [hred]
      refine ⟨hwf.1, hwf', ?_, ?_⟩
      · intro _
        apply hwf.2.2.1
        intro he
        rw [he] at hbne
        exact hbne (by simp)
      · intro j hj
        have hcur := hwf.2.2.2 j hj
        show (m.h2.table.set (hc &&& m.h2.mask) _).getD j [] = []
        by_cases hbj : (hc &&& m.h2.mask) = j
        · subst hbj
          exact absurd hcur hbne
        · rw [getD_set_ne _ _ _ hbj]
          exact hcur
    · rw [hred]
    · rw [hred]
    · rw [hred]
      rw [set_ne_nil]

theorem absRel_empty : absRel HMap.empty fun _ => none := by
  intro k v
  constructor
  · intro h
    cases h
  · rintro ⟨n, hn, _⟩
    rw [mapNodes_empty] at hn
    cases hn

theorem do_get_eq (db : DB) (keyArg : List Nat) :
    do_get db keyArg =
      match (hm_lookup db.hmap (probeFor (cstr keyArg)) cmpKeys).1 with
      | none =>
        (⟨ResponseStatus.KEY_NOT_FOUND, ascii "key not found\n"⟩,
          ⟨(hm_lookup db.hmap (probeFor (cstr keyArg)) cmpKeys).2, db.nextAddr⟩)
      | some n =>
        (⟨ResponseStatus.SUCCESS, ascii "get " ++ cstr keyArg ++ ascii " = " ++
            n.value ++ ascii "\n"⟩,
          ⟨(hm_lookup db.hmap (probeFor (cstr keyArg)) cmpKeys).2,
            db.nextAddr⟩) := rfl

theorem do_get_spec (db : DB) (keyArg : List Nat)
    (σ : List Nat → Option (List Nat)) (hswf : SWF db.hmap)
    (habs : absRel db.hmap σ) :
    SWF (do_get db keyArg).2.hmap ∧ absRel (do_get db keyArg).2.hmap σ ∧
    (do_get db keyArg).1.response =
      (match σ (cstr keyArg) with
       | some v => ascii "get " ++ cstr keyArg ++ ascii " = " ++ v ++ ascii "\n"
       | none => ascii "key not found\n") := by
  have hls := server_lookup_spec db.hmap (cstr keyArg) hswf
  have hperm := (hm_resizing_spec db.hmap hswf.1).2.1
  have hstate := hm_lookup_state db.hmap (probeFor (cstr keyArg)) cmpKeys
  have hS : SWF (hm_lookup db.hmap (probeFor (cstr keyArg)) cmpKeys).2 := by
    rw [hstate]
    exact SWF_resizing hswf
  have hR : absRel (hm_lookup db.hmap (probeFor (cstr keyArg)) cmpKeys).2 σ := by
    rw [hstate]
    exact absRel_of_perm habs hperm
  rw [do_get_eq]
  cases hr : (hm_lookup db.hmap (probeFor (cstr keyArg)) cmpKeys).1 with
  | none =>
    have hσ : σ (cstr keyArg) = none := by
      cases hv : σ (cstr keyArg) with
      | none => rfl
      | some v =>
        obtain ⟨n, hn, hk, _⟩ := (habs _ _).1 hv
        exact absurd hk (hls.2 hr n hn)
    refine ⟨hS, hR, ?_⟩
    rw [hσ]
  | some n =>
    obtain ⟨hmem, hk⟩ := hls.1 n hr
    have hσ : σ (cstr keyArg) = some n.value := (habs _ _).2 ⟨n, hmem, hk, rfl⟩
    refine ⟨hS, hR, ?_⟩
    rw [hσ]

theorem do_del_eq (db : DB) (keyArg : List Nat) :
    do_del db keyArg =
      match (hm_lookup db.hmap (probeFor (cstr keyArg)) cmpKeys).1 with
      | none =>
        (⟨ResponseStatus.KEY_NOT_FOUND,
            ascii "key " ++ cstr keyArg ++ ascii " not found\n"⟩,
          ⟨(hm_lookup db.hmap (probeFor (cstr keyArg)) cmpKeys).2, db.nextAddr⟩)
      | some _ =>
        (⟨ResponseStatus.SUCCESS,
            ascii "key " ++ cstr keyArg ++ ascii " deleted\n"⟩,
          ⟨(hm_delete (hm_lookup db.hmap (probeFor (cstr keyArg)) cmpKeys).2
              (probeFor (cstr keyArg)) cmpKeys).2, db.nextAddr⟩) := rfl

theorem do_del_spec (db : DB) (keyArg : List Nat)
    (σ : List Nat → Option (List Nat)) (hswf : SWF db.hmap)
    (habs : absRel db.hmap σ) :
    SWF (do_del db keyArg).2.hmap ∧
    absRel (do_del db keyArg).2.hmap
      (fun k' => if k' = cstr keyArg then none else σ k') ∧
    (do_del db keyArg).1.response =
      (match σ (cstr keyArg) with
       | some _ => ascii "key " ++ cstr keyArg ++ ascii " deleted\n"
       | none => ascii "key " ++ cstr keyArg ++ ascii " not found\n") := by
  have hls := server_lookup_spec db.hmap (cstr keyArg) hswf
  have hperm := (hm_resizing_spec db.hmap hswf.1).2.1
  have hstate := hm_lookup_state db.hmap (probeFor (cstr keyArg)) cmpKeys
  have hswf1 : SWF (hm_resizing db.hmap) := SWF_resizing hswf
  rw [do_del_eq]
  cases hr : (hm_lookup db.hmap (probeFor (cstr keyArg)) cmpKeys).1 with
  | none =>
    have hnone := hls.2 hr
    have hσ : σ (cstr keyArg) = none := by
      cases hv : σ (cstr keyArg) with
      | none => rfl
      | some v =>
        obtain ⟨n, hn, hk, _⟩ := (habs _ _).1 hv
        exact absurd hk (hnone n hn)
    refine ⟨?_, ?_, ?_⟩
    · show SWF (hm_lookup db.hmap (probeFor (cstr keyArg)) cmpKeys).2
      rw [hstate]
      exact hswf1
    · show absRel (hm_lookup db.hmap (probeFor (cstr keyArg)) cmpKeys).2 _
      rw [hstate]
      intro k' v
      show (if k' = cstr keyArg then none else σ k') = some v ↔ _
      by_cases hk' : k' = cstr keyArg
      · rw [if_pos hk']
        constructor
        · intro h
          cases h
        · rintro ⟨x, hx, hxk, _⟩
          subst hk'
          exact absurd hxk (hnone x (hperm.mem_iff.1 hx))
      · rw [if_neg hk', habs k' v]
        constructor
        · rintro ⟨x, hx, hxk, hxv⟩
          exact ⟨x, hperm.mem_iff.2 hx, hxk, hxv⟩
        · rintro ⟨x, hx, hxk, hxv⟩
          exact ⟨x, hperm.mem_iff.1 hx, hxk, hxv⟩
    · rw [hσ]
  | some n =>
    obtain ⟨hmem, hk⟩ := hls.1 n hr
    have hσ : σ (cstr keyArg) = some n.value := (habs _ _).2 ⟨n, hmem, hk, rfl⟩
    have hmem1 : n ∈ mapNodes (hm_resizing db.hmap) := hperm.mem_iff.2 hmem
    obtain ⟨hdwf, hmk, hm2c, hdnone, _, hdsome⟩ :=
      hm_delete_spec (hm_resizing db.hmap) (probeFor (cstr keyArg)) cmpKeys
        hswf1.1
    have hfound : (hm_delete (hm_resizing db.hmap) (probeFor (cstr keyArg))
        cmpKeys).1 ≠ none := by
      intro h0
      have hall := hdnone (server_compat hswf1 (cstr keyArg)) h0 n hmem1
      rw [cmpKeys_eq_true.2 hk] at hall
      cases hall
    obtain ⟨a, ha⟩ := Option.ne_none_iff_exists'.1 hfound
    obtain ⟨hacmp, hpd⟩ := hdsome a ha
    have hak : a.key = cstr keyArg := cmpKeys_eq_true.1 hacmp
    have hamem1 : a ∈ mapNodes (hm_resizing db.hmap) :=
      hpd.mem_iff.2 (List.mem_cons_self a _)
    have hkeysnd : (a.key :: (mapNodes (hm_delete (hm_resizing db.hmap)
        (probeFor (cstr keyArg)) cmpKeys).2).map fun x => x.key).Nodup := by
      have h := (hpd.map fun x => x.key).nodup hswf1.2.2.2
      simpa using h
    refine ⟨?_, ?_, ?_⟩
    · show SWF (hm_delete (hm_lookup db.hmap (probeFor (cstr keyArg))
        cmpKeys).2 (probeFor (cstr keyArg)) cmpKeys).2
      rw [hstate]
      refine ⟨hdwf, ?_, ?_, ?_⟩
      · intro h2ne
        obtain ⟨hmsk, hne⟩ := hm2c h2ne
        rw [hmsk, hmk]
        exact hswf1.2.1 hne
      · intro x hx
        exact hswf1.2.2.1 x (hpd.mem_iff.2 (List.mem_cons_of_mem a hx))
      · exact (List.nodup_cons.1 hkeysnd).2
    · show absRel (hm_delete (hm_lookup db.hmap (probeFor (cstr keyArg))
        cmpKeys).2 (probeFor (cstr keyArg)) cmpKeys).2 _
      rw [hstate]
      intro k' v
      show (if k' = cstr keyArg then none else σ k') = some v ↔ _
      by_cases hk' : k' = cstr keyArg
      · rw [if_pos hk']
        constructor
        · intro h
          cases h
        · rintro ⟨x, hx, hxk, _⟩
          have hx1 : x ∈ mapNodes (hm_resizing db.hmap) :=
            hpd.mem_iff.2 (List.mem_cons_of_mem a hx)
          have hxa : x = a := unique_key hswf1 hx1 hamem1
            (by rw [hxk, hk', hak])
          subst hxa
          exact ((List.nodup_cons.1 hkeysnd).1
            (List.mem_map.2 ⟨x, hx, rfl⟩)).elim
      · rw [if_neg hk', habs k' v]
        constructor
        · rintro ⟨x, hx, hxk, hxv⟩
          have hx1 : x ∈ a :: mapNodes (hm_delete (hm_resizing db.hmap)
              (probeFor (cstr keyArg)) cmpKeys).2 :=
            hpd.mem_iff.1 (hperm.mem_iff.2 hx)
          rcases List.mem_cons.1 hx1 with rfl | hx2
          · exact absurd (hxk.symm.trans hak) hk'
          · exact ⟨x, hx2, hxk, hxv⟩
        · rintro ⟨x, hx, hxk, hxv⟩
          exact ⟨x, hperm.mem_iff.1
            (hpd.mem_iff.2 (List.mem_cons_of_mem a hx)), hxk, hxv⟩
    · rw [hσ]

theorem do_set_spec (db : DB) (keyArg valArg : List Nat)
    (σ : List Nat → Option (List Nat)) (hswf : SWF db.hmap)
    (habs : absRel db.hmap σ) :
    SWF (do_set db keyArg valArg).2.hmap ∧
    absRel (do_set db keyArg valArg).2.hmap
      (fun k' => if k' = cstr keyArg then some (cstr valArg) else σ k') ∧
    (do_set db keyArg valArg).1.response =
      ascii "set " ++ cstr keyArg ++ ascii " to " ++ cstr valArg ++
        ascii "\n" := by
  have hperm := (hm_resizing_spec db.hmap hswf.1).2.1
  have hswf1 : SWF (hm_resizing db.hmap) := SWF_resizing hswf
  have hslot := hm_lookup_slot_spec db.hmap (probeFor (cstr keyArg)) cmpKeys
    hswf.1
  rw [do_set_eq]
  cases hr : (hm_lookup_slot db.hmap (probeFor (cstr keyArg)) cmpKeys).1 with
  | some s =>
    obtain ⟨n, hsg, hcmp, hmem⟩ := hslot.1 s hr
    have hk : n.key = cstr keyArg := cmpKeys_eq_true.1 hcmp
    have hmem1 : n ∈ mapNodes (hm_resizing db.hmap) := hperm.mem_iff.2 hmem
    have hsg' : slotGet (hm_resizing db.hmap) (str_hash (cstr keyArg)) s =
        some n := hsg
    obtain ⟨X, hA, hB, hwf', hmk1, hmk2, hne2⟩ :=
      slotSetValue_spec (hm_resizing db.hmap) (str_hash (cstr keyArg)) s
        (cstr valArg) hswf1.1 hsg'
    have hn'mem : (⟨n.hashcode, n.key, cstr valArg, n.addr⟩ : HNode) ∈
        mapNodes (slotSetValue (hm_resizing db.hmap) (str_hash (cstr keyArg))
          s (cstr valArg)) :=
      hB.mem_iff.2 (List.mem_cons_self _ _)
    have hkeysnd1 : (n.key :: X.map fun x => x.key).Nodup := by
      have h := (hA.map fun x => x.key).nodup hswf1.2.2.2
      simpa using h
    refine ⟨?_, ?_, rfl⟩
    · show SWF (slotSetValue
        (hm_lookup_slot db.hmap (probeFor (cstr keyArg)) cmpKeys).2
        (str_hash (cstr keyArg)) s (cstr valArg))
      rw [hm_lookup_slot_state]
      refine ⟨hwf', ?_, ?_, ?_⟩
      · intro h2ne
        rw [hmk1, hmk2]
        exact hswf1.2.1 (hne2.1 h2ne)
      · intro x hx
        rcases List.mem_cons.1 (hB.mem_iff.1 hx) with rfl | hx2
        · exact hswf1.2.2.1 n hmem1
        · exact hswf1.2.2.1 x (hA.mem_iff.2 (List.mem_cons_of_mem n hx2))
      · exact ((hB.map fun x => x.key).symm).nodup (by simpa using hkeysnd1)
    · show absRel (slotSetValue
        (hm_lookup_slot db.hmap (probeFor (cstr keyArg)) cmpKeys).2
        (str_hash (cstr keyArg)) s (cstr valArg)) _
      rw [hm_lookup_slot_state]
      intro k' v0
      show (if k' = cstr keyArg then some (cstr valArg) else σ k') =
        some v0 ↔ _
      by_cases hk' : k' = cstr keyArg
      · rw [if_pos hk']
        constructor
        · intro h
          refine ⟨⟨n.hashcode, n.key, cstr valArg, n.addr⟩, hn'mem, ?_, ?_⟩
          · show n.key = k'
            rw [hk, hk']
          · show cstr valArg = v0
            injection h
        · rintro ⟨x, hx, hxk, hxv⟩
          rcases List.mem_cons.1 (hB.mem_iff.1 hx) with rfl | hx2
          · show some (cstr valArg) = some v0
            rw [← hxv]
          · have hx1 : x ∈ mapNodes (hm_resizing db.hmap) :=
              hA.mem_iff.2 (List.mem_cons_of_mem n hx2)
            have hxa : x = n := unique_key hswf1 hx1 hmem1
              (by rw [hxk, hk', hk])
            have hnin : n ∈ X := hxa ▸ hx2
            exact ((List.nodup_cons.1 hkeysnd1).1
              (List.mem_map.2 ⟨n, hnin, rfl⟩)).elim
      · rw [if_neg hk', habs k' v0]
        constructor
        · rintro ⟨x, hx, hxk, hxv⟩
          rcases List.mem_cons.1 (hA.mem_iff.1 (hperm.mem_iff.2 hx)) with
            rfl | hx2
          · exact absurd (hxk.symm.trans hk) hk'
          · exact ⟨x, hB.mem_iff.2 (List.mem_cons_of_mem _ hx2), hxk, hxv⟩
        · rintro ⟨x, hx, hxk, hxv⟩
          rcases List.mem_cons.1 (hB.mem_iff.1 hx) with rfl | hx2
          · exact absurd (hxk.symm.trans hk) hk'
          · exact ⟨x, hperm.mem_iff.1
              (hA.mem_iff.2 (List.mem_cons_of_mem n hx2)), hxk, hxv⟩
  | none =>
    have hallfalse := hslot.2 (server_compat hswf (cstr keyArg)) hr
    have hnokey : ∀ x ∈ mapNodes (hm_resizing db.hmap),
        x.key ≠ cstr keyArg := by
      intro x hx hxe
      have h := hallfalse x (hperm.mem_iff.1 hx)
      rw [cmpKeys_eq_true.2 hxe] at h
      cases h
    obtain ⟨hiwf, hip, hicap⟩ := hm_insert_spec (hm_resizing db.hmap)
      ⟨str_hash (cstr keyArg), cstr keyArg, cstr valArg, db.nextAddr⟩ hswf1.1
    have hnd : (cstr keyArg ::
        (mapNodes (hm_resizing db.hmap)).map fun x => x.key).Nodup := by
      refine List.nodup_cons.2 ⟨?_, hswf1.2.2.2⟩
      intro hmem
      obtain ⟨x, hx, hxk⟩ := List.mem_map.1 hmem
      exact hnokey x hx hxk
    refine ⟨?_, ?_, rfl⟩
    · show SWF (hm_insert
        (hm_lookup_slot db.hmap (probeFor (cstr keyArg)) cmpKeys).2
        ⟨str_hash (cstr keyArg), cstr keyArg, cstr valArg, db.nextAddr⟩)
      rw [hm_lookup_slot_state]
      refine ⟨hiwf, hicap hswf1.2.1, ?_, ?_⟩
      · intro x hx
        rcases List.mem_cons.1 (hip.mem_iff.1 hx) with rfl | hx2
        · rfl
        · exact hswf1.2.2.1 x hx2
      · exact ((hip.map fun x => x.key).symm).nodup (by simpa using hnd)
    · show absRel (hm_insert
        (hm_lookup_slot db.hmap (probeFor (cstr keyArg)) cmpKeys).2
        ⟨str_hash (cstr keyArg), cstr keyArg, cstr valArg, db.nextAddr⟩) _
      rw [hm_lookup_slot_state]
      intro k' v0
      show (if k' = cstr keyArg then some (cstr valArg) else σ k') =
        some v0 ↔ _
      by_cases hk' : k' = cstr keyArg
      · rw [if_pos hk']
        constructor
        · intro h
          refine ⟨⟨str_hash (cstr keyArg), cstr keyArg, cstr valArg,
            db.nextAddr⟩, hip.mem_iff.2 (List.mem_cons_self _ _), ?_, ?_⟩
          · show cstr keyArg = k'
            rw [hk']
          · show cstr valArg = v0
            injection h
        · rintro ⟨x, hx, hxk, hxv⟩
          rcases List.mem_cons.1 (hip.mem_iff.1 hx) with rfl | hx2
          · show some (cstr valArg) = some v0
            rw [← hxv]
          · exact (hnokey x hx2 (hxk.trans hk')).elim
      · rw [if_neg hk', habs k' v0]
        constructor
        · rintro ⟨x, hx, hxk, hxv⟩
          exact ⟨x, hip.mem_iff.2
            (List.mem_cons_of_mem _ (hperm.mem_iff.2 hx)), hxk, hxv⟩
        · rintro ⟨x, hx, hxk, hxv⟩
          rcases List.mem_cons.1 (hip.mem_iff.1 hx) with rfl | hx2
          · exact absurd hxk.symm hk'
          · exact ⟨x, hperm.mem_iff.1 hx2, hxk, hxv⟩

theorem process_request_cons (db : DB) (verb : List Nat)
    (rest : List (List Nat)) :
    process_request db (verb :: rest) =
      if verb = ascii "set" then
        if (verb :: rest).length ≠ 3 then
          (⟨ResponseStatus.ERROR,
            ascii "invalid number of arguments, set requires two arguments\n"⟩,
            db)
        else do_set db ((verb :: rest).getD 1 []) ((verb :: rest).getD 2 [])
      else if verb = ascii "get" then
        if (verb :: rest).length ≠ 2 then
          (⟨ResponseStatus.ERROR, ascii "invalid number of arguments\n"⟩, db)
        else do_get db ((verb :: rest).getD 1 [])
      else if verb = ascii "del" then
        if (verb :: rest).length ≠ 2 then
          (⟨ResponseStatus.ERROR,
            ascii "invalid number of arguments, del requires one argument\n"⟩,
            db)
        else do_del db ((verb :: rest).getD 1 [])
      else (⟨ResponseStatus.UNKNOWN_COMMAND, ascii "unknown command\n"⟩, db) :=
  rfl

theorem specStep_cons (σ : List Nat → Option (List Nat)) (verb : List Nat)
    (rest : List (List Nat)) :
    specStep σ (verb :: rest) =
      if verb = ascii "set" ∧ (verb :: rest).length = 3 then
        fun k => if k = cstr ((verb :: rest).getD 1 []) then
          some (cstr ((verb :: rest).getD 2 [])) else σ k
      else if verb = ascii "del" ∧ (verb :: rest).length = 2 then
        fun k => if k = cstr ((verb :: rest).getD 1 []) then none else σ k
      else σ := rfl

theorem process_request_spec (db : DB) (c : List (List Nat))
    (σ : List Nat → Option (List Nat)) (hswf : SWF db.hmap)
    (habs : absRel db.hmap σ) :
    SWF (process_request db c).2.hmap ∧
    absRel (process_request db c).2.hmap (specStep σ c) := by
  cases c with
  | nil => exact ⟨hswf, habs⟩
  | cons verb rest =>
    rw [process_request_cons, specStep_cons]
    by_cases hv1 : verb = ascii "set"
    · rw [if_pos hv1]
      by_cases hl : (verb :: rest).length = 3
      · rw [if_neg (not_not_intro hl), if_pos ⟨hv1, hl⟩]
        obtain ⟨hS, hR, _⟩ :=
          do_set_spec db ((verb :: rest).getD 1 []) ((verb :: rest).getD 2 [])
            σ hswf habs
        exact ⟨hS, hR⟩
      · rw [if_pos hl,
          if_neg (fun h : verb = ascii "set" ∧ (verb :: rest).length = 3 =>
            hl h.2),
          if_neg (fun h : verb = ascii "del" ∧ (verb :: rest).length = 2 =>
            absurd (hv1.symm.trans h.1) (by decide))]
        exact ⟨hswf, habs⟩
    · rw [if_neg hv1]
      by_cases hv2 : verb = ascii "get"
      · rw [if_pos hv2,
          if_neg (fun h : verb = ascii "set" ∧ (verb :: rest).length = 3 =>
            hv1 h.1)]
        by_cases hl : (verb :: rest).length = 2
        · rw [if_neg (not_not_intro hl),
            if_neg (fun h : verb = ascii "del" ∧ (verb :: rest).length = 2 =>
              absurd (hv2.symm.trans h.1) (by decide))]
          obtain ⟨hS, hR, _⟩ :=
            do_get_spec db ((verb :: rest).getD 1 []) σ hswf habs
          exact ⟨hS, hR⟩
        · rw [if_pos hl,
            if_neg (fun h : verb = ascii "del" ∧ (verb :: rest).length = 2 =>
              hl h.2)]
          exact ⟨hswf, habs⟩
      · rw [if_neg hv2]
        by_cases hv3 : verb = ascii "del"
        · rw [if_pos hv3,
            if_neg (fun h : verb = ascii "set" ∧ (verb :: rest).length = 3 =>
              hv1 h.1)]
          by_cases hl : (verb :: rest).length = 2
          · rw [if_neg (not_not_intro hl), if_pos ⟨hv3, hl⟩]
            obtain ⟨hS, hR, _⟩ :=
              do_del_spec db ((verb :: rest).getD 1 []) σ hswf habs
            exact ⟨hS, hR⟩
          · rw [if_pos hl,
              if_neg (fun h : verb = ascii "del" ∧ (verb :: rest).length = 2 =>
                hl h.2)]
            exact ⟨hswf, habs⟩
        · rw [if_neg hv3,
            if_neg (fun h : verb = ascii "set" ∧ (verb :: rest).length = 3 =>
              hv1 h.1),
            if_neg (fun h : verb = ascii "del" ∧ (verb :: rest).length = 2 =>
              hv3 h.1)]
          exact ⟨hswf, habs⟩

theorem runCommands_cons (db : DB) (c : List (List Nat))
    (cs : List (List (List Nat))) :
    runCommands db (c :: cs) = runCommands (process_request db c).2 cs := rfl

theorem specRun_cons (σ : List Nat → Option (List Nat)) (c : List (List Nat))
    (cs : List (List (List Nat))) :
    specRun σ (c :: cs) = specRun (specStep σ c) cs := rfl

theorem runCommands_spec :
    ∀ (cs : List (List (List Nat))) (db : DB)
      (σ : List Nat → Option (List Nat)), SWF db.hmap → absRel db.hmap σ →
      SWF (runCommands db cs).hmap ∧
        absRel (runCommands db cs).hmap (specRun σ cs)
  | [], _, _, h1, h2 => ⟨h1, h2⟩
  | c :: cs, db, σ, h1, h2 => by
    rw [runCommands_cons, specRun_cons]
    obtain ⟨hS, hR⟩ := process_request_spec db c σ h1 h2
    exact runCommands_spec cs _ _ hS hR

theorem process_request_get (db : DB) (k : List Nat) :
    process_request db [ascii "get", k] = do_get db k := by
  rw [process_request_cons, if_neg (by decide), if_pos rfl, if_neg (by simp)]
  rfl

theorem process_request_del (db : DB) (k : List Nat) :
    process_request db [ascii "del", k] = do_del db k := by
  rw [process_request_cons, if_neg (by decide), if_neg (by decide),
    if_pos rfl, if_neg (by simp)]
  rfl

/-- A command sequence for the C1 witness: two sets of the same key. -/
def c1cs : List (List (List Nat)) :=
  [[ascii "set", ascii "x", ascii "1"], [ascii "set", ascii "x", ascii "2"]]

/-- C1: over any command sequence run from the initial database, with the
abstract key-value map computed by the reference semantics, a `get k`
returns `get k = v\n` exactly when the most recent surviving `set k v`
bound `v` (and `key not found\n` when no binding is live); when a
binding is live, `del k` responds `key k deleted\n` and a `get k` after
the `del` responds `key not found\n`. -/
theorem C1_set_get_del_semantics (cs : List (List (List Nat)))
    (k v : List Nat) (hk : cstr k = k) :
    (specRun (fun _ => none) cs k = some v →
      (process_request (runCommands DB.init cs) [ascii "get", k]).1.response =
          ascii "get " ++ k ++ ascii " = " ++ v ++ ascii "\n" ∧
      (process_request (runCommands DB.init cs) [ascii "del", k]).1.response =
          ascii "key " ++ k ++ ascii " deleted\n" ∧
      (process_request (process_request (runCommands DB.init cs)
          [ascii "del", k]).2 [ascii "get", k]).1.response =
        ascii "key not found\n") ∧
    (specRun (fun _ => none) cs k = none →
      (process_request (runCommands DB.init cs) [ascii "get", k]).1.response =
        ascii "key not found\n") := by
  obtain ⟨hS, hR⟩ := runCommands_spec cs DB.init (fun _ => none)
    SWF_empty absRel_empty
  constructor
  · intro hsome
    have hget := (do_get_spec (runCommands DB.init cs) k
      (specRun (fun _ => none) cs) hS hR).2.2
    rw [hk, hsome] at hget
    have hdel := do_del_spec (runCommands DB.init cs) k
      (specRun (fun _ => none) cs) hS hR
    have hdelresp := hdel.2.2
    rw [hk, hsome] at hdelresp
    have hget2 := (do_get_spec (do_del (runCommands DB.init cs) k).2 k
      (fun k' => if k' = cstr k then none
        else specRun (fun _ => none) cs k') hdel.1 hdel.2.1).2.2
    rw [if_pos (rfl : cstr k = cstr k)] at hget2
    refine ⟨?_, ?_, ?_⟩
    · rw [process_request_get]
      exact hget
    · rw [process_request_del]
      exact hdelresp
    · rw [process_request_del, process_request_get]
      exact hget2
  · intro hnone
    have hget := (do_get_spec (runCommands DB.init cs) k
      (specRun (fun _ => none) cs) hS hR).2.2
    rw [hk, hnone] at hget
    rw [process_request_get]
    exact hget

/-- Witness for C1 at a concrete run: after `set x 1; set x 2`, a `get x`
returns `get x = 2\n`, `del x` returns `key x deleted\n`, and a `get x`
after the `del` returns `key not found\n`. -/
theorem C1_witness :
    (process_request (runCommands DB.init c1cs)
        [ascii "get", ascii "x"]).1.response =
      ascii "get " ++ ascii "x" ++ ascii " = " ++ ascii "2" ++ ascii "\n" ∧
    (process_request (runCommands DB.init c1cs)
        [ascii "del", ascii "x"]).1.response =
      ascii "key " ++ ascii "x" ++ ascii " deleted\n" ∧
    (process_request (process_request (runCommands DB.init c1cs)
        [ascii "del", ascii "x"]).2 [ascii "get", ascii "x"]).1.response =
      ascii "key not found\n" :=
  (C1_set_get_del_semantics c1cs (ascii "x") (ascii "2") (by decide)).1
    (by decide)

/-- C9: a parsed command with an unknown verb does get the recoverable
`unknown command\n` response (and an arity error gets its message), and
the parser returns consumed for the complete request — but the claim
that the connection stays open and continues serving is false: after the
drain consumes the whole 16-byte unknown-verb request, the first
need-more check misreads the stale count word, the parser reports a
fatal `invalid command\n`, and the read handler closes the connection. -/
theorem C9_unknown_verb_closes_connection :
    (process_request DB.init [ascii "foo", ascii "x"]).1.response =
        ascii "unknown command\n" ∧
    (process_request DB.init [ascii "set", ascii "x"]).1.response =
        ascii "invalid number of arguments, set requires two arguments\n" ∧
    try_parse (encodeReq [ascii "foo", ascii "x"]) 16 0 =
      ParseResult.ok 16 [ascii "foo", ascii "x"] ∧
    outcomeIsKeep (handle_read_chunk DB.init Connection.init
        (encodeReq [ascii "foo", ascii "x"])) = false ∧
    outcomeWb (handle_read_chunk DB.init Connection.init
        (encodeReq [ascii "foo", ascii "x"])) =
      frameBytes (ascii "unknown command\n") ++
        frameBytes (ascii "invalid command\n") := by
  decide

end RedisKV


